import Mathlib

/-!
Verification of the buildworker build-environment engine (package
`buildworker`, files `buildenv.go`, `builder.go`, `build.go`).

The Go source is shallowly embedded: pure computations (platform-catalog
expansion and filtering, artifact naming, the package map built by `Open`)
become Lean functions on lists and strings; the effectful operations
(deploy transaction, plugin checks, provisioning, module injection) become
functions over an explicit abstract state, with the outcome of each
external subprocess (git, go get, go vet, go test, go build, filesystem
calls) supplied by an oracle record, and an event trace recording which
operations ran, in order, and whether they succeeded.  Directory contents
are abstracted as `Nat` snapshots; two directories are byte-identical
exactly when their snapshots are equal.
-/

namespace Buildworker

/-- The host package constant, `CaddyPackage` in `buildenv.go`. -/
def CaddyPackage : String := "github.com/mholt/caddy"

/-- Platform record from `buildenv.go` (`Platform` struct): GOOS, GOARCH,
GOARM and cgo support. -/
structure Platform where
  OS : String
  Arch : String
  ARM : String
  Cgo : Bool
deriving DecidableEq, Repr

/-- The `UnsupportedPlatforms` list from `buildenv.go`. -/
def UnsupportedPlatforms : List Platform :=
  [⟨"android", "", "", false⟩,
   ⟨"darwin", "arm", "", false⟩,
   ⟨"darwin", "arm64", "", false⟩,
   ⟨"linux", "s390x", "", false⟩,
   ⟨"nacl", "", "", false⟩,
   ⟨"plan9", "", "", false⟩]

/-- Skip-rule matching from `SupportedPlatforms` in `buildenv.go`: a rule
matches a platform when each of its non-empty OS/Arch/ARM fields equals
the platform's field (`osMatch && archMatch && armMatch`). -/
def matchesSkip (unsup p : Platform) : Bool :=
  (unsup.OS == "" || unsup.OS == p.OS) &&
  (unsup.Arch == "" || unsup.Arch == p.Arch) &&
  (unsup.ARM == "" || unsup.ARM == p.ARM)

/-- The expansion of one catalog entry: an undifferentiated ARM platform
(`Arch == "arm" && ARM == ""`) becomes the three concrete ARM revisions
5, 6 and 7; every other platform is kept as is.  This is the per-entry
effect of the downward loop in `SupportedPlatforms`. -/
def armExpansion (p : Platform) : List Platform :=
  if p.Arch = "arm" ∧ p.ARM = "" then
    [{ p with ARM := "5" }, { p with ARM := "6" }, { p with ARM := "7" }]
  else [p]

/-- Structural (per-entry) form of the ARM expansion over a whole list. -/
def expandARM : List Platform → List Platform
  | [] => []
  | p :: rest => armExpansion p ++ expandARM rest

/-- One iteration of the ARM-expansion loop in `SupportedPlatforms`:
at index `i`, if the entry is an undifferentiated ARM platform, set its
ARM field to "5" and splice in the "6" and "7" revisions right after it
(the in-place `platforms[i].ARM = "5"` plus slice insertion). -/
def expandStep (ps : List Platform) (i : Nat) : List Platform :=
  match ps.get? i with
  | none => ps
  | some p =>
    if p.Arch = "arm" ∧ p.ARM = "" then
      ps.take i ++ [{ p with ARM := "5" }, { p with ARM := "6" }, { p with ARM := "7" }]
        ++ ps.drop (i + 1)
    else ps

/-- The downward loop `for i := len(platforms)-1; i >= 0; i--` of
`SupportedPlatforms`: `expandDown ps n` runs `expandStep` at indices
`n-1, n-2, ..., 0` on the evolving list. -/
def expandDown (ps : List Platform) : Nat → List Platform
  | 0 => ps
  | i + 1 => expandDown (expandStep ps i) i

/-- The removal loop of `SupportedPlatforms`: drop every platform matched
by some skip rule, keep the rest, preserving order (the index-based
in-place removal loop visits each surviving element once). -/
def removeSkipped (skip : List Platform) : List Platform → List Platform
  | [] => []
  | p :: rest =>
    if skip.any (fun u => matchesSkip u p) then removeSkipped skip rest
    else p :: removeSkipped skip rest

/-- `SupportedPlatforms` from `buildenv.go`, applied to the raw platform
list reported by `go tool dist list` (the subprocess output is a
parameter): expand undifferentiated ARM entries downward, then remove
entries matching a skip rule. -/
def SupportedPlatforms (raw skip : List Platform) : List Platform :=
  removeSkipped skip (expandDown raw raw.length)

/-- Spec-side wildcard rule agreement: the rule agrees with a platform
when every non-empty rule field equals the platform's corresponding
field (empty fields are wildcards). -/
def RuleAgrees (u p : Platform) : Prop :=
  (u.OS ≠ "" → u.OS = p.OS) ∧ (u.Arch ≠ "" → u.Arch = p.Arch) ∧
  (u.ARM ≠ "" → u.ARM = p.ARM)

instance (u p : Platform) : Decidable (RuleAgrees u p) := by
  unfold RuleAgrees; infer_instance

/-! ## Module injector (`plugInThePlugin` in `buildenv.go`)

The entry file `caddy/caddymain/run.go` is abstracted to its parse
result: a parseable Go source file is its list of import paths plus an
opaque remainder; anything else fails to parse.  A file on disk carries
its content and its permission bits. -/

/-- Content of the entry file on disk: either Go source that parses to a
list of import paths and an opaque body, or unparseable bytes. -/
inductive FileContent where
  | goSource (imports : List String) (body : Nat)
  | invalid (raw : Nat)
deriving DecidableEq, Repr

/-- A file on disk: content plus permission bits. -/
structure DiskFile where
  content : FileContent
  mode : Nat
deriving DecidableEq, Repr

/-- `parser.ParseFile` on the abstract content: succeeds exactly on
well-formed Go source. -/
def parseFile : FileContent → Option (List String × Nat)
  | .goSource imports body => some (imports, body)
  | .invalid _ => none

/-- The external `astutil.AddNamedImport` call, modelled from the
documented contract of `golang.org/x/tools/go/ast/astutil`: it adds
an import of the given path to the file only if that path is absent,
and leaves the file unchanged otherwise. -/
def addNamedImport (imports : List String) (pkg : String) : List String :=
  if pkg ∈ imports then imports else imports ++ [pkg]

/-- Outcomes of the two fallible external steps inside
`plugInThePlugin`: serializing the tree with `printer.Fprint`, and
`ioutil.WriteFile`.  `remnantRaw` is the junk left in the file if the
write itself fails midway. -/
structure InjectOracle where
  printOk : Bool
  writeOk : Bool
  remnantRaw : Nat

/-- Events emitted by one injector run, in execution order. -/
inductive IEv where
  | parse (ok : Bool)
  | addImport
  | serialize (ok : Bool)
  | write (ok : Bool)
deriving DecidableEq, Repr

/-- Errors returned by `plugInThePlugin` (the three `fmt.Errorf` sites). -/
inductive InjErr where
  | parseError
  | serializeError
  | writeError
deriving DecidableEq, Repr

/-- Result of one injector run. -/
structure InjectOut where
  disk : DiskFile
  err : Option InjErr
  trace : List IEv
deriving Repr

/-- `plugInThePlugin` from `buildenv.go`: parse the entry file, add a
side-effect import of `pkg` via `astutil.AddNamedImport`, print the tree
into an in-memory buffer, and only then write the buffer back with
`ioutil.WriteFile(file, buf, 0660)`.  Since the file was just parsed it
exists on disk, and `WriteFile` opens an existing file with
`O_CREATE|O_TRUNC`, so the permission argument is not applied and the
file keeps its on-disk mode.  A printed well-formed tree re-parses to
itself, so the written content is the updated source. -/
def plugInThePlugin (o : InjectOracle) (disk : DiskFile) (pkg : String) : InjectOut :=
  match parseFile disk.content with
  | none => ⟨disk, some .parseError, [.parse false]⟩
  | some (imports, body) =>
    let imports' := addNamedImport imports pkg
    if o.printOk then
      if o.writeOk then
        ⟨⟨.goSource imports' body, disk.mode⟩, none,
         [.parse true, .addImport, .serialize true, .write true]⟩
      else
        ⟨⟨.invalid o.remnantRaw, disk.mode⟩, some .writeError,
         [.parse true, .addImport, .serialize true, .write false]⟩
    else
      ⟨disk, some .serializeError, [.parse true, .addImport, .serialize false]⟩

/-! ## Check pipeline and deploy transaction (`buildenv.go`)

Directory contents are abstracted as `Nat` snapshots (`Content`); every
external subprocess outcome comes from an oracle.  Each operation run by
`Deploy`, `RunPluginChecks`, `goBuildChecks` and `restoreMasterGopath`
appends an event to a trace, in execution order, tagged with whether it
succeeded. -/

/-- Abstract snapshot of a directory tree's bytes. -/
abbrev Content := Nat

/-- Events of a deploy transaction and its checks, in execution order. -/
inductive Ev where
  | backup (ok : Bool)
  | removeBackup
  | update (pkg : String) (ok : Bool)
  | vet (pkg : String) (ok : Bool)
  | test (pkg : String) (ok : Bool)
  | plugin (pkg : String) (ok : Bool)
  | hostTest (ok : Bool)
  | buildPlat (pkg : String) (plat : Platform) (ok : Bool)
  | renameAside (ok : Bool)
  | copyBack (ok : Bool)
  | deleteOld (ok : Bool)
deriving DecidableEq, Repr

/-- Errors produced by the plugin checks (`RunPluginChecks` and
`goBuildChecks` wrap each failing step in `fmt.Errorf`). -/
inductive CheckErr where
  | vetFailed (pkg : String)
  | testFailed (pkg : String)
  | plugFailed (pkg : String)
  | hostTestFailed
  | buildFailed (pkg : String) (plat : Platform)
  | distListFailed
deriving DecidableEq, Repr

/-- Oracle for the subprocesses run by the check pipeline: `go vet`,
`go test -race` on the plugin, `plugInThePlugin`, `go test -race` on the
host, `go tool dist list`, and the per-platform `go build`. -/
structure CheckOracle where
  vetOk : String → Bool
  testOk : String → Bool
  plugOk : String → Bool
  hostTestOk : Bool
  distListOk : Bool
  rawPlatforms : List Platform
  buildOk : String → Platform → Bool

/-- The loop body of `goBuildChecks`: cross-compile `pkg` for each
platform in order, aborting at the first failing build. -/
def goBuildChecksRun (co : CheckOracle) (pkg : String) :
    List Platform → Option CheckErr × List Ev
  | [] => (none, [])
  | plat :: rest =>
    if co.buildOk pkg plat then
      let r := goBuildChecksRun co pkg rest
      (r.1, Ev.buildPlat pkg plat true :: r.2)
    else (some (.buildFailed pkg plat), [Ev.buildPlat pkg plat false])

/-- `goBuildChecks` from `buildenv.go`: obtain the platform catalog from
`SupportedPlatforms(UnsupportedPlatforms)` (failing if `go tool dist
list` fails), then compile for every platform, aborting on the first
failure. -/
def goBuildChecks (co : CheckOracle) (pkg : String) : Option CheckErr × List Ev :=
  if co.distListOk then
    goBuildChecksRun co pkg (SupportedPlatforms co.rawPlatforms UnsupportedPlatforms)
  else (some .distListFailed, [])

/-- Result of `RunPluginChecks`: the revert flag (first return value in
the Go code), the error, and the event trace. -/
structure RpcOut where
  revert : Bool
  err : Option CheckErr
  trace : List Ev
deriving Repr

/-- `RunPluginChecks` from `buildenv.go`: for each non-host package, run
`go vet`, `go test -race` on the package, plug the plugin into the host
entry point, `go test -race` on the host with the plugin installed, and
the cross-platform build checks — returning at the first failure.  Only
a failure of the host test run returns `revert = true`; every other
failure returns `revert = false`. -/
def RunPluginChecks (co : CheckOracle) : List String → RpcOut
  | [] => ⟨false, none, []⟩
  | pkg :: rest =>
    if pkg = CaddyPackage then RunPluginChecks co rest
    else if co.vetOk pkg = false then
      ⟨false, some (.vetFailed pkg), [.vet pkg false]⟩
    else if co.testOk pkg = false then
      ⟨false, some (.testFailed pkg), [.vet pkg true, .test pkg false]⟩
    else if co.plugOk pkg = false then
      ⟨false, some (.plugFailed pkg), [.vet pkg true, .test pkg true, .plugin pkg false]⟩
    else if co.hostTestOk = false then
      ⟨true, some .hostTestFailed,
       [.vet pkg true, .test pkg true, .plugin pkg true, .hostTest false]⟩
    else
      match goBuildChecks co pkg with
      | (some e, bevs) =>
        ⟨false, some e,
         [.vet pkg true, .test pkg true, .plugin pkg true, .hostTest true] ++ bevs⟩
      | (none, bevs) =>
        let r := RunPluginChecks co rest
        ⟨r.revert, r.err,
         [.vet pkg true, .test pkg true, .plugin pkg true, .hostTest true] ++ bevs ++ r.trace⟩

/-! ## The package map (`be.pkgs`, a Go `map[string]string`)

Modelled as an association list with unique keys; `insertPkg` is Go map
assignment (overwrite the existing key or add a new entry), `lookupPkg`
is indexing. -/

/-- Go map assignment `m[k] = v`: overwrite the entry for `k` if present,
otherwise add one. -/
def insertPkg : List (String × String) → String → String → List (String × String)
  | [], k, v => [(k, v)]
  | kv :: rest, k, v => if kv.1 = k then (k, v) :: rest else kv :: insertPkg rest k v

/-- Go map lookup `m[k]`. -/
def lookupPkg : List (String × String) → String → Option String
  | [], _ => none
  | kv :: rest, k => if kv.1 = k then some kv.2 else lookupPkg rest k

/-- The key set of the package map, in iteration order. -/
def pkgKeys (pkgs : List (String × String)) : List String :=
  pkgs.map Prod.fst

/-- `packageToDeploy` from `buildenv.go`: with one package the host
itself is deployed; with two, the first key that is not the host package
(the `range` loop with `break`). -/
def packageToDeploy (pkgs : List (String × String)) : String :=
  if pkgs.length = 1 then CaddyPackage
  else if pkgs.length = 2 then
    match (pkgKeys pkgs).find? (fun k => k != CaddyPackage) with
    | some k => k
    | none => ""
  else ""

/-- Errors of `restoreMasterGopath`: the rename, the copy back, or the
deletion of the renamed old cache can fail. -/
inductive RestoreErr where
  | renameFailed
  | copyFailed
  | deleteFailed
deriving DecidableEq, Repr

/-- Errors returned by `Deploy` (each `fmt.Errorf` site; a check failure
followed by a failed restore produces the combined
`"%v; additionally, error restoring GOPATH: %v"` error). -/
inductive DeployErr where
  | nothingToDeploy
  | noCaddyPackage
  | tooManyPackages
  | backupFailed
  | updateFailed
  | checkFailed (e : CheckErr)
  | checkAndRestoreFailed (e : CheckErr) (r : RestoreErr)
deriving DecidableEq, Repr

/-- Oracle for the deploy transaction's own filesystem and subprocess
steps. `updatedContent` is the master cache content after a successful
`go get -u`; `failedUpdateContent` whatever a failed update leaves;
`copyRemnant` the partial content left when the restore copy fails. -/
structure DeployOracle where
  backupOk : Bool
  updateOk : Bool
  updatedContent : Content
  failedUpdateContent : Content
  renameOk : Bool
  copyBackOk : Bool
  copyRemnant : Content
  deleteOldOk : Bool

/-- `restoreMasterGopath` from `buildenv.go`: rename the live master
cache aside to a fresh temporary name, deep-copy the backup into the
master location, then delete the renamed old cache; return at the first
failing step.  Returns the resulting master-cache content, the error,
and the events. -/
def restoreMasterGopath (o : DeployOracle) (backup live : Content) :
    Content × Option RestoreErr × List Ev :=
  if o.renameOk = false then (live, some .renameFailed, [.renameAside false])
  else if o.copyBackOk = false then
    (o.copyRemnant, some .copyFailed, [.renameAside true, .copyBack false])
  else if o.deleteOldOk = false then
    (backup, some .deleteFailed, [.renameAside true, .copyBack true, .deleteOld false])
  else (backup, none, [.renameAside true, .copyBack true, .deleteOld true])

/-- Result of a deploy transaction: final master-cache content, error,
and event trace. -/
structure DeployOut where
  master : Content
  err : Option DeployErr
  trace : List Ev
deriving Repr

/-- The tail of `Deploy` after a successful backup and update: run the
plugin checks and, exactly when they failed with the revert flag set,
restore the master cache from the backup, combining the two errors if
the restore itself fails.  The deferred backup deletion runs on exit. -/
def deployRunAndDecide (o : DeployOracle) (co : CheckOracle)
    (pkgs : List (String × String)) (backupContent updated : Content) : DeployOut :=
  let r := RunPluginChecks co (pkgKeys pkgs)
  let pre : List Ev := [.backup true, .update (packageToDeploy pkgs) true]
  match r.err, r.revert with
  | some e, true =>
    match restoreMasterGopath o backupContent updated with
    | (m2, some re, revs) =>
      ⟨m2, some (.checkAndRestoreFailed e re), pre ++ r.trace ++ revs ++ [.removeBackup]⟩
    | (m2, none, revs) =>
      ⟨m2, some (.checkFailed e), pre ++ r.trace ++ revs ++ [.removeBackup]⟩
  | some e, false => ⟨updated, some (.checkFailed e), pre ++ r.trace ++ [.removeBackup]⟩
  | none, _ => ⟨updated, none, pre ++ r.trace ++ [.removeBackup]⟩

/-- `Deploy` from `buildenv.go`: refuse unless the package map has one
or two entries and contains the host package; back up the master cache;
run `go get -u` on the single deploy target in the master cache only;
run the plugin checks; restore from the backup exactly when the checks
demand a revert; delete the backup on every exit path past its
creation. -/
def Deploy (o : DeployOracle) (co : CheckOracle)
    (pkgs : List (String × String)) (master : Content) : DeployOut :=
  if pkgs.length = 0 then ⟨master, some .nothingToDeploy, []⟩
  else if pkgs.length = 1 ∨ pkgs.length = 2 then
    if CaddyPackage ∈ pkgKeys pkgs then
      if o.backupOk then
        if o.updateOk then deployRunAndDecide o co pkgs master o.updatedContent
        else ⟨o.failedUpdateContent, some .updateFailed,
              [.backup true, .update (packageToDeploy pkgs) false, .removeBackup]⟩
      else ⟨master, some .backupFailed, [.backup false]⟩
    else ⟨master, some .noCaddyPackage, []⟩
  else ⟨master, some .tooManyPackages, []⟩

/-! ## Workspace provisioning (`Open` and `provision` in `buildenv.go`) -/

/-- State of one module's checkout in the temporary GOPATH: whether its
tree was copied from the master cache, whether `git fetch` ran, which
version is checked out, and whether `go get` resolved its
dependencies. -/
structure WsEntry where
  copied : Bool
  fetched : Bool
  version : Option String
  depsResolved : Bool
deriving DecidableEq, Repr

/-- The ephemeral workspace: module identifier to checkout state. -/
abbrev Workspace := List (String × WsEntry)

/-- Insert-or-overwrite into the workspace map. -/
def wsInsert : Workspace → String → WsEntry → Workspace
  | [], k, e => [(k, e)]
  | kv :: rest, k, e => if kv.1 = k then (k, e) :: rest else kv :: wsInsert rest k e

/-- Update the workspace entry of an existing module, if present. -/
def wsUpdate : Workspace → String → (WsEntry → WsEntry) → Workspace
  | [], _, _ => []
  | kv :: rest, k, f => if kv.1 = k then (k, f kv.2) :: rest else kv :: wsUpdate rest k f

/-- Workspace lookup. -/
def wsLookup : Workspace → String → Option WsEntry
  | [], _ => none
  | kv :: rest, k => if kv.1 = k then some kv.2 else wsLookup rest k

/-- Errors of `provision` (one per `fmt.Errorf` site). -/
inductive ProvErr where
  | fillFailed (pkg : String)
  | copyFailed (pkg : String)
  | fetchFailed (pkg : String)
  | checkoutFailed (pkg version : String)
  | getFailed (pkg : String)
deriving DecidableEq, Repr

/-- Events of provisioning, in execution order. -/
inductive PEv where
  | fill (pkg : String) (ok : Bool)
  | copy (pkg : String) (ok : Bool)
  | fetch (pkg : String) (ok : Bool)
  | checkout (pkg version : String) (ok : Bool)
  | goGet (pkg : String) (ok : Bool)
deriving DecidableEq, Repr

/-- Oracle for provisioning subprocesses: `go get` in the master cache,
the deep copy into the workspace, `git fetch`, `git checkout`, the
workspace `go get`, and the version the master cache currently has
checked out (what a plain copy yields before checkout). -/
structure ProvisionOracle where
  fillOk : String → Bool
  copyOk : String → Bool
  fetchOk : String → Bool
  checkoutOk : String → Bool
  getOk : String → Bool
  cacheVersion : String → String

/-- `fillMasterGopath` from `buildenv.go`: `go get -d -t -x` for every
package of the build environment, in the master cache only, aborting on
the first failure (the host package merely gets a `/...` suffix on its
command line, which the abstraction drops). -/
def fillMasterGopath (o : ProvisionOracle) :
    List (String × String) → Option ProvErr × List PEv
  | [] => (none, [])
  | (p, _) :: rest =>
    if o.fillOk p then
      let r := fillMasterGopath o rest
      (r.1, .fill p true :: r.2)
    else (some (.fillFailed p), [.fill p false])

/-- The per-module body of `provision`'s loop: deep-copy the module's
tree out of the master cache (arriving at whatever version the cache has
checked out), `git fetch` in the copy, `git checkout` the requested
version, then `go get` the possibly new dependencies — aborting at the
first failure. -/
def provisionPkg (o : ProvisionOracle) (ws : Workspace) (p v : String) :
    Workspace × Option ProvErr × List PEv :=
  if o.copyOk p = false then (ws, some (.copyFailed p), [.copy p false])
  else
    let ws1 := wsInsert ws p ⟨true, false, some (o.cacheVersion p), false⟩
    if o.fetchOk p = false then (ws1, some (.fetchFailed p), [.copy p true, .fetch p false])
    else
      let ws2 := wsUpdate ws1 p (fun e => { e with fetched := true })
      if o.checkoutOk p = false then
        (ws2, some (.checkoutFailed p v), [.copy p true, .fetch p true, .checkout p v false])
      else
        let ws3 := wsUpdate ws2 p (fun e => { e with version := some v })
        if o.getOk p = false then
          (ws3, some (.getFailed p),
           [.copy p true, .fetch p true, .checkout p v true, .goGet p false])
        else
          (wsUpdate ws3 p (fun e => { e with depsResolved := true }), none,
           [.copy p true, .fetch p true, .checkout p v true, .goGet p true])

/-- The provisioning loop over the package map. -/
def provisionLoop (o : ProvisionOracle) :
    Workspace → List (String × String) → Workspace × Option ProvErr × List PEv
  | ws, [] => (ws, none, [])
  | ws, (p, v) :: rest =>
    match provisionPkg o ws p v with
    | (ws', some e, evs) => (ws', some e, evs)
    | (ws', none, evs) =>
      let r := provisionLoop o ws' rest
      (r.1, r.2.1, evs ++ r.2.2)

/-- `provision` from `buildenv.go`: fill the master cache with `go get`
for every package, then copy/fetch/checkout/resolve each package into
the fresh, empty temporary GOPATH. -/
def provision (o : ProvisionOracle) (pkgs : List (String × String)) :
    Workspace × Option ProvErr × List PEv :=
  match fillMasterGopath o pkgs with
  | (some e, fevs) => ([], some e, fevs)
  | (none, fevs) =>
    let r := provisionLoop o [] pkgs
    (r.1, r.2.1, fevs ++ r.2.2)

/-- A configured plugin (`CaddyPlugin` in `builder.go`). -/
structure CaddyPlugin where
  Repo : String
  Package : String
  Version : String
deriving DecidableEq, Repr

/-- The package map built by `Open` in `buildenv.go`: insert each
plugin's package at its version, then the host package at the requested
host version, with the empty version defaulting to `"master"`. -/
def openPkgs (caddyVersion : String) (plugins : List CaddyPlugin) :
    List (String × String) :=
  insertPkg (plugins.foldl (fun m pl => insertPkg m pl.Package pl.Version) [])
    CaddyPackage (if caddyVersion = "" then "master" else caddyVersion)

/-! ## Artifact naming (`Build` in `buildenv.go`) -/

/-- `strings.HasPrefix` on the character sequence of a string. -/
def goHasPrefix (s pre : String) : Bool :=
  pre.data.isPrefixOf s.data

/-- Go's `s[:n]` slicing on the character sequence of a string (the
versions involved are ASCII, where Go's byte slicing and character
slicing agree). -/
def goTake (s : String) (n : Nat) : String :=
  ⟨s.data.take n⟩

/-- The version component of the artifact name in `Build`: the host
version is kept verbatim if it starts with `"v"` or has at most 8
characters, and truncated to its first 8 characters otherwise. -/
def hostVersionTag (v : String) : String :=
  if goHasPrefix v "v" = false ∧ v.length > 8 then goTake v 8 else v

/-- The artifact base name assembled by `Build` in `buildenv.go`:
`"caddy_" + version + "_" + OS + "_" + arch`, the GOARM revision
appended exactly when the architecture is `arm`, and `"_custom"`
appended exactly when the package map holds more than the host
package. -/
def outputBaseName (pkgs : List (String × String)) (plat : Platform) : String :=
  let caddyVer := (lookupPkg pkgs CaddyPackage).getD "master"
  let n1 := "caddy_" ++ hostVersionTag caddyVer ++ "_" ++ plat.OS ++ "_" ++ plat.Arch
  let n2 := if plat.Arch = "arm" then n1 ++ plat.ARM else n1
  if pkgs.length > 1 then n2 ++ "_custom" else n2

/-- Spec-side artifact base name: the components in the order the spec
lists them — version, OS, architecture, an ARM-variant suffix exactly
when the architecture is arm, a custom marker exactly when an extension
module is present. -/
def specBaseName (hostVersion : String) (plat : Platform) (hasExtension : Bool) : String :=
  "caddy_" ++ hostVersionTag hostVersion ++ "_" ++ plat.OS ++ "_" ++ plat.Arch
    ++ (if plat.Arch = "arm" then plat.ARM else "")
    ++ (if hasExtension then "_custom" else "")

/-! ## Spec-side pipeline description (for the step-order claim)

The check pipeline as the spec describes it: an ordered list of named
steps with a fast-fail runner. -/

/-- The named steps of the check pipeline for one module. -/
inductive CheckStep where
  | staticAnalysis
  | testSuite
  | injectModule
  | hostCompat
  | crossCompile (plat : Platform)
deriving DecidableEq, Repr

/-- The outcome each step would have, per the subprocess oracle. -/
def stepOutcome (co : CheckOracle) (pkg : String) : CheckStep → Bool
  | .staticAnalysis => co.vetOk pkg
  | .testSuite => co.testOk pkg
  | .injectModule => co.plugOk pkg
  | .hostCompat => co.hostTestOk
  | .crossCompile plat => co.buildOk pkg plat

/-- The full ordered step list of one integration check run: static
analysis, test suite, module injection, host compatibility, then one
cross-platform compile per catalog entry. -/
def pipelineSteps (raw : List Platform) : List CheckStep :=
  [.staticAnalysis, .testSuite, .injectModule, .hostCompat] ++
    (SupportedPlatforms raw UnsupportedPlatforms).map .crossCompile

/-- A fast-fail runner over an ordered step list: run each step in
order; the first failing step is recorded and aborts all remaining
steps. -/
def fastFail (outcome : CheckStep → Bool) : List CheckStep → List (CheckStep × Bool)
  | [] => []
  | s :: rest =>
    if outcome s then (s, true) :: fastFail outcome rest else [(s, false)]

/-- Rendering of an executed step back into the trace event it causes
for a given module. -/
def stepToEv (pkg : String) : CheckStep × Bool → Ev
  | (.staticAnalysis, ok) => .vet pkg ok
  | (.testSuite, ok) => .test pkg ok
  | (.injectModule, ok) => .plugin pkg ok
  | (.hostCompat, ok) => .hostTest ok
  | (.crossCompile plat, ok) => .buildPlat pkg plat ok

/-! ## Platform catalog lemmas -/

theorem expandARM_append (a b : List Platform) :
    expandARM (a ++ b) = expandARM a ++ expandARM b := by
  induction a with
  | nil => simp [expandARM]
  | cons p rest ih => simp [expandARM, ih]

theorem expandDown_take_drop (i : Nat) :
    ∀ ps : List Platform, i ≤ ps.length →
      expandDown ps i = expandARM (ps.take i) ++ ps.drop i := by
  induction i with
  | zero => intro ps _; simp [expandDown, expandARM]
  | succ i ih =>
    intro ps h
    have hi : i < ps.length := h
    have hget : ps[i]? = some ps[i] := List.getElem?_eq_getElem hi
    have htake : ps.take (i + 1) = ps.take i ++ [ps[i]] := by
      rw [List.take_succ, hget]; rfl
    have hlen : (ps.take i).length = i := by
      rw [List.length_take]; omega
    have hstep : expandStep ps i = ps.take i ++ armExpansion ps[i] ++ ps.drop (i + 1) := by
      by_cases harm : ps[i].Arch = "arm" ∧ ps[i].ARM = ""
      · simp only [expandStep, List.get?_eq_getElem?, hget, armExpansion, if_pos harm]
      · simp only [expandStep, List.get?_eq_getElem?, hget, armExpansion, if_neg harm]
        rw [← htake, List.take_append_drop]
    have hle : i ≤ (expandStep ps i).length := by
      rw [hstep]
      simp only [List.length_append, hlen]
      omega
    show expandDown (expandStep ps i) i = _
    rw [ih _ hle, hstep, List.append_assoc, List.take_left' hlen, List.drop_left' hlen,
      htake, expandARM_append]
    simp [expandARM, List.append_assoc]

theorem expandDown_eq_expandARM (ps : List Platform) :
    expandDown ps ps.length = expandARM ps := by
  rw [expandDown_take_drop ps.length ps (le_refl _)]
  simp

theorem matchesSkip_iff (u p : Platform) :
    matchesSkip u p = true ↔ RuleAgrees u p := by
  simp only [matchesSkip, RuleAgrees, Bool.and_eq_true, Bool.or_eq_true, beq_iff_eq]
  constructor
  · rintro ⟨⟨h1, h2⟩, h3⟩
    exact ⟨fun h => h1.resolve_left h, fun h => h2.resolve_left h, fun h => h3.resolve_left h⟩
  · rintro ⟨h1, h2, h3⟩
    refine ⟨⟨?_, ?_⟩, ?_⟩
    · by_cases h : u.OS = "" <;> [exact Or.inl h; exact Or.inr (h1 h)]
    · by_cases h : u.Arch = "" <;> [exact Or.inl h; exact Or.inr (h2 h)]
    · by_cases h : u.ARM = "" <;> [exact Or.inl h; exact Or.inr (h3 h)]

theorem mem_removeSkipped (skip : List Platform) (l : List Platform) (q : Platform) :
    q ∈ removeSkipped skip l ↔ q ∈ l ∧ ¬ ∃ u ∈ skip, RuleAgrees u q := by
  induction l with
  | nil => simp [removeSkipped]
  | cons p rest ih =>
    by_cases h : skip.any (fun u => matchesSkip u p) = true
    · have hex : ∃ u ∈ skip, RuleAgrees u p := by
        rcases List.any_eq_true.mp h with ⟨u, hu, hm⟩
        exact ⟨u, hu, (matchesSkip_iff u p).mp hm⟩
      simp only [removeSkipped, if_pos h, ih, List.mem_cons]
      constructor
      · rintro ⟨hm, hn⟩; exact ⟨Or.inr hm, hn⟩
      · rintro ⟨hm | hm, hn⟩
        · exact absurd (hm ▸ hex) hn
        · exact ⟨hm, hn⟩
    · have hnex : ¬ ∃ u ∈ skip, RuleAgrees u p := by
        rintro ⟨u, hu, hr⟩
        exact h (List.any_eq_true.mpr ⟨u, hu, (matchesSkip_iff u p).mpr hr⟩)
      simp only [removeSkipped, if_neg h, List.mem_cons, ih]
      constructor
      · rintro (rfl | ⟨hm, hn⟩)
        · exact ⟨Or.inl rfl, hnex⟩
        · exact ⟨Or.inr hm, hn⟩
      · rintro ⟨rfl | hm, hn⟩
        · exact Or.inl rfl
        · exact Or.inr ⟨hm, hn⟩

/-- C8: the catalog first replaces each raw entry with architecture
`arm` and empty ARM variant by the three entries with ARM variants 5, 6
and 7 (the downward loop equals the per-entry expansion), then removes a
platform if and only if some exclusion rule agrees with it on every
non-empty rule field, empty fields acting as wildcards; in particular
the rule `{OS=darwin, Arch=arm}` removes all three darwin/arm
revisions. -/
theorem supportedPlatforms_expand_then_filter (raw skip : List Platform) (q : Platform) :
    expandDown raw raw.length = expandARM raw
    ∧ (q ∈ SupportedPlatforms raw skip ↔
        q ∈ expandARM raw ∧ ¬ ∃ u ∈ skip, RuleAgrees u q)
    ∧ expandARM [⟨"darwin", "arm", "", true⟩] =
        [⟨"darwin", "arm", "5", true⟩, ⟨"darwin", "arm", "6", true⟩,
         ⟨"darwin", "arm", "7", true⟩]
    ∧ SupportedPlatforms [⟨"darwin", "arm", "", true⟩] [⟨"darwin", "arm", "", false⟩] = [] := by
  refine ⟨expandDown_eq_expandARM raw, ?_, by decide, by decide⟩
  rw [SupportedPlatforms, expandDown_eq_expandARM raw]
  exact mem_removeSkipped skip (expandARM raw) q

/-- Witness for the catalog theorem at the darwin/arm instance. -/
theorem supportedPlatforms_expand_then_filter_witness :
    SupportedPlatforms [⟨"darwin", "arm", "", true⟩] [⟨"darwin", "arm", "", false⟩] = []
    ∧ (⟨"darwin", "arm", "5", true⟩ : Platform) ∈
        expandARM [⟨"darwin", "arm", "", true⟩]
    ∧ ¬ (⟨"darwin", "arm", "5", true⟩ : Platform) ∈
        SupportedPlatforms [⟨"darwin", "arm", "", true⟩] [⟨"darwin", "arm", "", false⟩] := by
  refine ⟨(supportedPlatforms_expand_then_filter [⟨"darwin", "arm", "", true⟩]
    [⟨"darwin", "arm", "", false⟩] ⟨"darwin", "arm", "5", true⟩).2.2.2, by decide, ?_⟩
  intro hmem
  have h := ((supportedPlatforms_expand_then_filter [⟨"darwin", "arm", "", true⟩]
    [⟨"darwin", "arm", "", false⟩] ⟨"darwin", "arm", "5", true⟩).2.1).mp hmem
  exact h.2 ⟨⟨"darwin", "arm", "", false⟩, by decide, by decide⟩

/-! ## Module injector theorems -/

/-- C5: injecting the same module identifier twice into the same freshly
checked-out entry file (one holding no reference to it) yields a file
with exactly one import reference to that identifier: the external
`AddNamedImport` call adds the path only if absent, so the second run
rewrites the file without adding anything. -/
theorem plugInThePlugin_idempotent (o o' : InjectOracle) (imports : List String)
    (body mode : Nat) (pkg : String)
    (hfresh : pkg ∉ imports)
    (h1 : o.printOk = true) (h2 : o.writeOk = true)
    (h3 : o'.printOk = true) (h4 : o'.writeOk = true) :
    (plugInThePlugin o' (plugInThePlugin o ⟨.goSource imports body, mode⟩ pkg).disk pkg).disk
        = ⟨.goSource (imports ++ [pkg]) body, mode⟩
    ∧ (imports ++ [pkg]).count pkg = 1
    ∧ (plugInThePlugin o ⟨.goSource imports body, mode⟩ pkg).err = none
    ∧ (plugInThePlugin o' (plugInThePlugin o ⟨.goSource imports body, mode⟩ pkg).disk pkg).err
        = none := by
  have hadd : addNamedImport imports pkg = imports ++ [pkg] := by
    rw [addNamedImport, if_neg hfresh]
  have hadd2 : addNamedImport (imports ++ [pkg]) pkg = imports ++ [pkg] := by
    rw [addNamedImport, if_pos (by simp)]
  have hrun1 : plugInThePlugin o ⟨.goSource imports body, mode⟩ pkg =
      ⟨⟨.goSource (imports ++ [pkg]) body, mode⟩, none,
       [.parse true, .addImport, .serialize true, .write true]⟩ := by
    simp [plugInThePlugin, parseFile, hadd, h1, h2]
  have hrun2 : plugInThePlugin o' ⟨.goSource (imports ++ [pkg]) body, mode⟩ pkg =
      ⟨⟨.goSource (imports ++ [pkg]) body, mode⟩, none,
       [.parse true, .addImport, .serialize true, .write true]⟩ := by
    simp [plugInThePlugin, parseFile, hadd2, h3, h4]
  refine ⟨?_, ?_, ?_, ?_⟩
  · rw [hrun1, hrun2]
  · rw [List.count_append, List.count_eq_zero.mpr hfresh]
    simp
  · rw [hrun1]
  · rw [hrun1, hrun2]

/-- Witness for the injection idempotence theorem on a concrete file. -/
theorem plugInThePlugin_idempotent_witness :
    ("example.com/p" ∉ ["fmt"]) ∧
    (plugInThePlugin ⟨true, true, 0⟩
        (plugInThePlugin ⟨true, true, 0⟩ ⟨.goSource ["fmt"] 9, 420⟩ "example.com/p").disk
        "example.com/p").disk
      = ⟨.goSource ["fmt", "example.com/p"] 9, 420⟩ :=
  ⟨by decide,
   (plugInThePlugin_idempotent ⟨true, true, 0⟩ ⟨true, true, 0⟩ ["fmt"] 9 420 "example.com/p"
      (by decide) rfl rfl rfl rfl).1⟩

/-- C6: the injector writes to disk only after serialization succeeded
(a write event is always preceded by a successful serialize event and
only occurs when printing succeeded), the written file keeps the
original permission bits, and on a parse or serialize failure it returns
an error with the file byte-for-byte untouched. -/
theorem plugInThePlugin_disk_safety (o : InjectOracle) (disk : DiskFile) (pkg : String) :
    (parseFile disk.content = none →
      (plugInThePlugin o disk pkg).disk = disk
      ∧ (plugInThePlugin o disk pkg).err = some .parseError)
    ∧ (o.printOk = false →
      (plugInThePlugin o disk pkg).disk = disk
      ∧ (parseFile disk.content ≠ none →
          (plugInThePlugin o disk pkg).err = some .serializeError))
    ∧ (∀ b, IEv.write b ∈ (plugInThePlugin o disk pkg).trace →
        o.printOk = true ∧ IEv.serialize true ∈ (plugInThePlugin o disk pkg).trace
        ∧ (plugInThePlugin o disk pkg).trace =
            [.parse true, .addImport, .serialize true, .write b])
    ∧ (plugInThePlugin o disk pkg).disk.mode = disk.mode := by
  rcases hc : disk.content with ⟨imports, body⟩ | raw
  · by_cases hp : o.printOk = true
    · by_cases hw : o.writeOk = true
      · have hrun : plugInThePlugin o disk pkg =
            ⟨⟨.goSource (addNamedImport imports pkg) body, disk.mode⟩, none,
             [.parse true, .addImport, .serialize true, .write true]⟩ := by
          simp [plugInThePlugin, hc, parseFile, hp, hw]
        refine ⟨?_, ?_, ?_, ?_⟩
        · intro hnone; simp [parseFile] at hnone
        · intro hpf; rw [hpf] at hp; simp at hp
        · intro b hb
          rw [hrun] at hb ⊢
          simp only [List.mem_cons, List.not_mem_nil, or_false] at hb
          rcases hb with h | h | h | h
          · cases h
          · cases h
          · cases h
          · cases h; exact ⟨hp, by simp, rfl⟩
        · rw [hrun]
      · have hrun : plugInThePlugin o disk pkg =
            ⟨⟨.invalid o.remnantRaw, disk.mode⟩, some .writeError,
             [.parse true, .addImport, .serialize true, .write false]⟩ := by
          simp [plugInThePlugin, hc, parseFile, hp, Bool.eq_false_iff.mpr hw]
        refine ⟨?_, ?_, ?_, ?_⟩
        · intro hnone; simp [parseFile] at hnone
        · intro hpf; rw [hpf] at hp; simp at hp
        · intro b hb
          rw [hrun] at hb ⊢
          simp only [List.mem_cons, List.not_mem_nil, or_false] at hb
          rcases hb with h | h | h | h
          · cases h
          · cases h
          · cases h
          · cases h; exact ⟨hp, by simp, rfl⟩
        · rw [hrun]
    · have hp' : o.printOk = false := Bool.eq_false_iff.mpr hp
      have hrun : plugInThePlugin o disk pkg =
          ⟨disk, some .serializeError, [.parse true, .addImport, .serialize false]⟩ := by
        simp [plugInThePlugin, hc, parseFile, hp']
      refine ⟨?_, ?_, ?_, ?_⟩
      · intro hnone; simp [parseFile] at hnone
      · intro _; exact ⟨by rw [hrun], fun _ => by rw [hrun]⟩
      · intro b hb
        rw [hrun] at hb
        simp at hb
      · rw [hrun]
  · have hrun : plugInThePlugin o disk pkg = ⟨disk, some .parseError, [.parse false]⟩ := by
      simp [plugInThePlugin, hc, parseFile]
    refine ⟨?_, ?_, ?_, ?_⟩
    · intro _; exact ⟨by rw [hrun], by rw [hrun]⟩
    · intro _
      refine ⟨by rw [hrun], fun habs => ?_⟩
      simp [parseFile] at habs
    · intro b hb
      rw [hrun] at hb
      simp at hb
    · rw [hrun]

/-- Witness for the injector disk-safety theorem: a parse failure leaves
the concrete file untouched. -/
theorem plugInThePlugin_disk_safety_witness :
    (plugInThePlugin ⟨true, true, 0⟩ ⟨.invalid 5, 493⟩ "example.com/p").disk
        = ⟨.invalid 5, 493⟩
    ∧ (plugInThePlugin ⟨true, true, 0⟩ ⟨.invalid 5, 493⟩ "example.com/p").err
        = some .parseError :=
  (plugInThePlugin_disk_safety ⟨true, true, 0⟩ ⟨.invalid 5, 493⟩ "example.com/p").1 (by decide)

/-! ## Check-pipeline lemmas -/

/-- Events emitted by the check pipeline itself. -/
def isCheckEv : Ev → Bool
  | .vet _ _ => true
  | .test _ _ => true
  | .plugin _ _ => true
  | .hostTest _ => true
  | .buildPlat _ _ _ => true
  | _ => false

/-- A failure event of a step other than the host-compatibility test:
static analysis, the module's own test suite, the injection, or a
cross-platform compile. -/
def isNonHostFailEv : Ev → Bool
  | .vet _ ok => !ok
  | .test _ ok => !ok
  | .plugin _ ok => !ok
  | .buildPlat _ _ ok => !ok
  | _ => false

/-- The start of a cache restoration. -/
def isRenameAsideEv : Ev → Bool
  | .renameAside _ => true
  | _ => false

/-- A cache update (`go get -u`) event. -/
def isUpdateEv : Ev → Bool
  | .update _ _ => true
  | _ => false

theorem gbcr_events (co : CheckOracle) (pkg : String) :
    ∀ l e, e ∈ (goBuildChecksRun co pkg l).2 → ∃ plat ok, e = Ev.buildPlat pkg plat ok := by
  intro l
  induction l with
  | nil => simp [goBuildChecksRun]
  | cons p rest ih =>
    intro e he
    by_cases hb : co.buildOk pkg p = true
    · simp only [goBuildChecksRun, hb, if_true, List.mem_cons] at he
      rcases he with rfl | he
      · exact ⟨p, true, rfl⟩
      · exact ih e he
    · simp only [goBuildChecksRun, hb, if_false, Bool.false_eq_true, List.mem_cons,
        List.not_mem_nil, or_false] at he
      exact ⟨p, false, he⟩

theorem gbcr_fail_err (co : CheckOracle) (pkg : String) :
    ∀ l e, e ∈ (goBuildChecksRun co pkg l).2 → isNonHostFailEv e = true →
      (goBuildChecksRun co pkg l).1 ≠ none := by
  intro l
  induction l with
  | nil => simp [goBuildChecksRun]
  | cons p rest ih =>
    intro e he hf
    by_cases hb : co.buildOk pkg p = true
    · simp only [goBuildChecksRun, hb, if_true, List.mem_cons] at he ⊢
      rcases he with rfl | he
      · simp [isNonHostFailEv] at hf
      · exact ih e he hf
    · simp [goBuildChecksRun, hb]

theorem gbcr_ok_iff (co : CheckOracle) (pkg : String) :
    ∀ l, (goBuildChecksRun co pkg l).1 = none ↔ ∀ p ∈ l, co.buildOk pkg p = true := by
  intro l
  induction l with
  | nil => simp [goBuildChecksRun]
  | cons p rest ih =>
    by_cases hb : co.buildOk pkg p = true
    · simp [goBuildChecksRun, hb, ih]
    · simp [goBuildChecksRun, hb]

theorem gbcr_trace_spec (co : CheckOracle) (pkg : String) :
    ∀ l, (goBuildChecksRun co pkg l).2 =
      (fastFail (stepOutcome co pkg) (l.map .crossCompile)).map (stepToEv pkg) := by
  intro l
  induction l with
  | nil => simp [goBuildChecksRun, fastFail]
  | cons p rest ih =>
    by_cases hb : co.buildOk pkg p = true
    · simp [goBuildChecksRun, hb, fastFail, stepOutcome, stepToEv, ih]
    · simp [goBuildChecksRun, hb, fastFail, stepOutcome, stepToEv]

theorem rpc_events (co : CheckOracle) :
    ∀ l e, e ∈ (RunPluginChecks co l).trace → isCheckEv e = true := by
  intro l
  induction l with
  | nil => simp [RunPluginChecks]
  | cons pkg rest ih =>
    intro e he
    by_cases hcad : pkg = CaddyPackage
    · rw [RunPluginChecks, if_pos hcad] at he
      exact ih e he
    · rw [RunPluginChecks, if_neg hcad] at he
      by_cases hv : co.vetOk pkg = false
      · rw [if_pos hv] at he
        simp at he
        simp [he, isCheckEv]
      · rw [if_neg hv] at he
        by_cases ht : co.testOk pkg = false
        · rw [if_pos ht] at he
          simp at he
          rcases he with rfl | rfl <;> rfl
        · rw [if_neg ht] at he
          by_cases hpl : co.plugOk pkg = false
          · rw [if_pos hpl] at he
            simp at he
            rcases he with rfl | rfl | rfl <;> rfl
          · rw [if_neg hpl] at he
            by_cases hh : co.hostTestOk = false
            · rw [if_pos hh] at he
              simp at he
              rcases he with rfl | rfl | rfl | rfl <;> rfl
            · rw [if_neg hh] at he
              rcases hgb : goBuildChecks co pkg with ⟨oe, bevs⟩
              have hbevs : ∀ e, e ∈ bevs → isCheckEv e = true := by
                intro e' he'
                rcases oe with _ | e0 <;> rw [goBuildChecks] at hgb
                all_goals {
                  by_cases hd : co.distListOk = true
                  · rw [if_pos hd] at hgb
                    have := gbcr_events co pkg
                      (SupportedPlatforms co.rawPlatforms UnsupportedPlatforms) e' (by rw [hgb]; exact he')
                    rcases this with ⟨plat, ok, rfl⟩
                    rfl
                  · rw [if_neg hd] at hgb
                    injection hgb with h1 h2
                    rw [← h2] at he'
                    simp at he'
                }
              rw [hgb] at he
              rcases oe with _ | e0
              · have he' : e ∈ ([Ev.vet pkg true, Ev.test pkg true, Ev.plugin pkg true,
                    Ev.hostTest true] : List Ev) ∨ e ∈ bevs ∨ e ∈ (RunPluginChecks co rest).trace := by
                  simpa [List.mem_append, or_assoc] using he
                rcases he' with he' | he' | he'
                · simp only [List.mem_cons, List.not_mem_nil, or_false] at he'
                  rcases he' with rfl | rfl | rfl | rfl <;> rfl
                · exact hbevs e he'
                · exact ih e he'
              · have he' : e ∈ ([Ev.vet pkg true, Ev.test pkg true, Ev.plugin pkg true,
                    Ev.hostTest true] : List Ev) ∨ e ∈ bevs := by
                  simpa [List.mem_append, or_assoc] using he
                rcases he' with he' | he'
                · simp only [List.mem_cons, List.not_mem_nil, or_false] at he'
                  rcases he' with rfl | rfl | rfl | rfl <;> rfl
                · exact hbevs e he'

theorem gbc_events (co : CheckOracle) (pkg : String) (e : Ev)
    (he : e ∈ (goBuildChecks co pkg).2) : ∃ plat ok, e = Ev.buildPlat pkg plat ok := by
  rw [goBuildChecks] at he
  by_cases hd : co.distListOk = true
  · rw [if_pos hd] at he
    exact gbcr_events co pkg _ e he
  · rw [if_neg hd] at he
    simp at he

theorem gbc_fail_err (co : CheckOracle) (pkg : String) (e : Ev)
    (he : e ∈ (goBuildChecks co pkg).2) (hf : isNonHostFailEv e = true) :
    (goBuildChecks co pkg).1 ≠ none := by
  rw [goBuildChecks] at he ⊢
  by_cases hd : co.distListOk = true
  · rw [if_pos hd] at he ⊢
    exact gbcr_fail_err co pkg _ e he hf
  · rw [if_neg hd]
    simp

theorem rpc_revert_iff (co : CheckOracle) :
    ∀ l, ((RunPluginChecks co l).revert = true ↔
            Ev.hostTest false ∈ (RunPluginChecks co l).trace)
      ∧ ((RunPluginChecks co l).revert = true → (RunPluginChecks co l).err ≠ none) := by
  intro l
  induction l with
  | nil => simp [RunPluginChecks]
  | cons pkg rest ih =>
    by_cases hcad : pkg = CaddyPackage
    · rw [RunPluginChecks, if_pos hcad]
      exact ih
    · rw [RunPluginChecks, if_neg hcad]
      by_cases hv : co.vetOk pkg = false
      · rw [if_pos hv]; simp
      · rw [if_neg hv]
        by_cases ht : co.testOk pkg = false
        · rw [if_pos ht]; simp
        · rw [if_neg ht]
          by_cases hpl : co.plugOk pkg = false
          · rw [if_pos hpl]; simp
          · rw [if_neg hpl]
            by_cases hh : co.hostTestOk = false
            · rw [if_pos hh]; simp
            · rw [if_neg hh]
              rcases hgb : goBuildChecks co pkg with ⟨oe, bevs⟩
              have hnob : ∀ b, Ev.hostTest b ∉ bevs := by
                intro b hmem
                rcases gbc_events co pkg (Ev.hostTest b) (by rw [hgb]; exact hmem)
                  with ⟨plat, ok, h⟩
                cases h
              rcases oe with _ | e0
              · simp only [hgb]
                constructor
                · constructor
                  · intro hr
                    have hmem := ih.1.mp hr
                    simp only [List.mem_append]
                    exact Or.inr hmem
                  · intro hmem
                    rcases (by simpa [or_assoc] using hmem :
                        Ev.hostTest false ∈ ([Ev.vet pkg true, Ev.test pkg true,
                          Ev.plugin pkg true, Ev.hostTest true] : List Ev)
                        ∨ Ev.hostTest false ∈ bevs
                        ∨ Ev.hostTest false ∈ (RunPluginChecks co rest).trace)
                      with h | h | h
                    · simp at h
                    · exact absurd h (hnob false)
                    · exact ih.1.mpr h
                · exact ih.2
              · simp only [hgb]
                constructor
                · constructor
                  · intro hr; simp at hr
                  · intro hmem
                    rcases (by simpa [or_assoc] using hmem :
                        Ev.hostTest false ∈ ([Ev.vet pkg true, Ev.test pkg true,
                          Ev.plugin pkg true, Ev.hostTest true] : List Ev)
                        ∨ Ev.hostTest false ∈ bevs)
                      with h | h
                    · simp at h
                    · exact absurd h (hnob false)
                · intro hr; simp at hr

theorem rpc_fail (co : CheckOracle) :
    ∀ l e, e ∈ (RunPluginChecks co l).trace → isNonHostFailEv e = true →
      (RunPluginChecks co l).err ≠ none ∧ (RunPluginChecks co l).revert = false := by
  intro l
  induction l with
  | nil => simp [RunPluginChecks]
  | cons pkg rest ih =>
    intro e he hf
    by_cases hcad : pkg = CaddyPackage
    · rw [RunPluginChecks, if_pos hcad] at he ⊢
      exact ih e he hf
    · rw [RunPluginChecks, if_neg hcad] at he ⊢
      by_cases hv : co.vetOk pkg = false
      · rw [if_pos hv] at he ⊢; simp
      · rw [if_neg hv] at he ⊢
        by_cases ht : co.testOk pkg = false
        · rw [if_pos ht] at he ⊢; simp
        · rw [if_neg ht] at he ⊢
          by_cases hpl : co.plugOk pkg = false
          · rw [if_pos hpl] at he ⊢; simp
          · rw [if_neg hpl] at he ⊢
            by_cases hh : co.hostTestOk = false
            · rw [if_pos hh] at he ⊢
              simp only [List.mem_cons, List.not_mem_nil, or_false] at he
              rcases he with rfl | rfl | rfl | rfl <;> simp [isNonHostFailEv] at hf
            · rw [if_neg hh] at he ⊢
              rcases hgb : goBuildChecks co pkg with ⟨oe, bevs⟩
              rw [hgb] at he
              rcases oe with _ | e0
              · simp only []
                have hgbe : (goBuildChecks co pkg).1 = none := by rw [hgb]
                rcases (by simpa [or_assoc] using he :
                    e ∈ ([Ev.vet pkg true, Ev.test pkg true, Ev.plugin pkg true,
                      Ev.hostTest true] : List Ev)
                    ∨ e ∈ bevs ∨ e ∈ (RunPluginChecks co rest).trace)
                  with h | h | h
                · simp only [List.mem_cons, List.not_mem_nil, or_false] at h
                  rcases h with rfl | rfl | rfl | rfl <;> simp [isNonHostFailEv] at hf
                · exact absurd hgbe (gbc_fail_err co pkg e (by rw [hgb]; exact h) hf)
                · simpa only [hgb] using ih e h hf
              · simp only [hgb]
                simp

/-! ## Restore lemmas -/

theorem restore_rename_mem (o : DeployOracle) (bk l : Content) :
    Ev.renameAside o.renameOk ∈ (restoreMasterGopath o bk l).2.2 := by
  rw [restoreMasterGopath]
  by_cases h1 : o.renameOk = false
  · rw [if_pos h1, h1]; simp
  · have h1' : o.renameOk = true := by revert h1; cases o.renameOk <;> simp
    rw [if_neg h1, h1']
    by_cases h2 : o.copyBackOk = false
    · rw [if_pos h2]; simp
    · rw [if_neg h2]
      by_cases h3 : o.deleteOldOk = false
      · rw [if_pos h3]; simp
      · rw [if_neg h3]; simp

theorem restore_mem (o : DeployOracle) (bk l : Content) (e : Ev)
    (he : e ∈ (restoreMasterGopath o bk l).2.2) :
    (∃ ok, e = Ev.renameAside ok) ∨ (∃ ok, e = Ev.copyBack ok) ∨
    (∃ ok, e = Ev.deleteOld ok) := by
  rw [restoreMasterGopath] at he
  by_cases h1 : o.renameOk = false
  · rw [if_pos h1] at he
    simp at he
    exact Or.inl ⟨false, he⟩
  · rw [if_neg h1] at he
    by_cases h2 : o.copyBackOk = false
    · rw [if_pos h2] at he
      simp only [List.mem_cons, List.not_mem_nil, or_false] at he
      rcases he with rfl | rfl
      · exact Or.inl ⟨true, rfl⟩
      · exact Or.inr (Or.inl ⟨false, rfl⟩)
    · rw [if_neg h2] at he
      by_cases h3 : o.deleteOldOk = false
      · rw [if_pos h3] at he
        simp only [List.mem_cons, List.not_mem_nil, or_false] at he
        rcases he with rfl | rfl | rfl
        · exact Or.inl ⟨true, rfl⟩
        · exact Or.inr (Or.inl ⟨true, rfl⟩)
        · exact Or.inr (Or.inr ⟨false, rfl⟩)
      · rw [if_neg h3] at he
        simp only [List.mem_cons, List.not_mem_nil, or_false] at he
        rcases he with rfl | rfl | rfl
        · exact Or.inl ⟨true, rfl⟩
        · exact Or.inr (Or.inl ⟨true, rfl⟩)
        · exact Or.inr (Or.inr ⟨true, rfl⟩)

theorem restore_ok (o : DeployOracle) (bk l : Content)
    (h1 : o.renameOk = true) (h2 : o.copyBackOk = true) (h3 : o.deleteOldOk = true) :
    restoreMasterGopath o bk l =
      (bk, none, [.renameAside true, .copyBack true, .deleteOld true]) := by
  simp [restoreMasterGopath, h1, h2, h3]

/-! ## Deploy theorems -/

/-- C1: in a deploy transaction the cache restoration is started if and
only if the host-compatibility step (the host's own test suite with the
module injected) failed; a failure of the module's own static analysis,
test suite, or cross-platform compile step (or its injection) makes the
deploy return an error while the cache keeps its updated content, with
no restoration. -/
theorem deploy_rollback_iff_hostcompat (o : DeployOracle) (co : CheckOracle)
    (pkgs : List (String × String)) (master : Content) :
    ((∃ b, Ev.renameAside b ∈ (Deploy o co pkgs master).trace) ↔
        Ev.hostTest false ∈ (Deploy o co pkgs master).trace)
    ∧ (∀ e, e ∈ (Deploy o co pkgs master).trace → isNonHostFailEv e = true →
        (Deploy o co pkgs master).err ≠ none
        ∧ (Deploy o co pkgs master).master = o.updatedContent
        ∧ ∀ b, Ev.renameAside b ∉ (Deploy o co pkgs master).trace) := by
  rw [Deploy]
  by_cases h0 : pkgs.length = 0
  · rw [if_pos h0]
    exact ⟨by simp, fun e he hf => by simp at he⟩
  · rw [if_neg h0]
    by_cases h1 : pkgs.length = 1 ∨ pkgs.length = 2
    · rw [if_pos h1]
      by_cases h2 : CaddyPackage ∈ pkgKeys pkgs
      · rw [if_pos h2]
        by_cases hbk : o.backupOk = true
        · rw [if_pos hbk]
          by_cases hup : o.updateOk = true
          · rw [if_pos hup]
            have hnor : ∀ b, Ev.renameAside b ∉ (RunPluginChecks co (pkgKeys pkgs)).trace := by
              intro b hmem
              have := rpc_events co (pkgKeys pkgs) _ hmem
              simp [isCheckEv] at this
            rcases her : (RunPluginChecks co (pkgKeys pkgs)).err with _ | e0
            · have hnoh : Ev.hostTest false ∉ (RunPluginChecks co (pkgKeys pkgs)).trace := by
                intro hmem
                exact (rpc_revert_iff co (pkgKeys pkgs)).2
                  ((rpc_revert_iff co (pkgKeys pkgs)).1.mpr hmem) her
              have hred : deployRunAndDecide o co pkgs master o.updatedContent =
                  ⟨o.updatedContent, none,
                   [Ev.backup true, Ev.update (packageToDeploy pkgs) true] ++
                     (RunPluginChecks co (pkgKeys pkgs)).trace ++ [Ev.removeBackup]⟩ := by
                rw [deployRunAndDecide]
                simp only [her]
              rw [hred]
              constructor
              · constructor
                · rintro ⟨b, hb⟩
                  rcases (by simpa [or_assoc] using hb :
                      Ev.renameAside b ∈ ([Ev.backup true,
                        Ev.update (packageToDeploy pkgs) true] : List Ev)
                      ∨ Ev.renameAside b ∈ (RunPluginChecks co (pkgKeys pkgs)).trace
                      ∨ Ev.renameAside b = Ev.removeBackup) with h | h | h
                  · simp at h
                  · exact absurd h (hnor b)
                  · cases h
                · intro hb
                  rcases (by simpa [or_assoc] using hb :
                      Ev.hostTest false ∈ ([Ev.backup true,
                        Ev.update (packageToDeploy pkgs) true] : List Ev)
                      ∨ Ev.hostTest false ∈ (RunPluginChecks co (pkgKeys pkgs)).trace
                      ∨ Ev.hostTest false = Ev.removeBackup) with h | h | h
                  · simp at h
                  · exact absurd h hnoh
                  · cases h
              · intro e he hf
                rcases (by simpa [or_assoc] using he :
                    e ∈ ([Ev.backup true, Ev.update (packageToDeploy pkgs) true] : List Ev)
                    ∨ e ∈ (RunPluginChecks co (pkgKeys pkgs)).trace
                    ∨ e = Ev.removeBackup) with h | h | h
                · simp only [List.mem_cons, List.not_mem_nil, or_false] at h
                  rcases h with rfl | rfl <;> simp [isNonHostFailEv] at hf
                · exact absurd her (rpc_fail co (pkgKeys pkgs) e h hf).1
                · rw [h] at hf; simp [isNonHostFailEv] at hf
            · rcases hrev : (RunPluginChecks co (pkgKeys pkgs)).revert with _ | _
              · -- revert = false: no restore, cache stays updated
                have hnoh : Ev.hostTest false ∉ (RunPluginChecks co (pkgKeys pkgs)).trace := by
                  intro hmem
                  have := (rpc_revert_iff co (pkgKeys pkgs)).1.mpr hmem
                  rw [hrev] at this
                  cases this
                have hred : deployRunAndDecide o co pkgs master o.updatedContent =
                    ⟨o.updatedContent, some (.checkFailed e0),
                     [Ev.backup true, Ev.update (packageToDeploy pkgs) true] ++
                       (RunPluginChecks co (pkgKeys pkgs)).trace ++ [Ev.removeBackup]⟩ := by
                  rw [deployRunAndDecide]
                  simp only [her, hrev]
                rw [hred]
                constructor
                · constructor
                  · rintro ⟨b, hb⟩
                    rcases (by simpa [or_assoc] using hb :
                        Ev.renameAside b ∈ ([Ev.backup true,
                          Ev.update (packageToDeploy pkgs) true] : List Ev)
                        ∨ Ev.renameAside b ∈ (RunPluginChecks co (pkgKeys pkgs)).trace
                        ∨ Ev.renameAside b = Ev.removeBackup) with h | h | h
                    · simp at h
                    · exact absurd h (hnor b)
                    · cases h
                  · intro hb
                    rcases (by simpa [or_assoc] using hb :
                        Ev.hostTest false ∈ ([Ev.backup true,
                          Ev.update (packageToDeploy pkgs) true] : List Ev)
                        ∨ Ev.hostTest false ∈ (RunPluginChecks co (pkgKeys pkgs)).trace
                        ∨ Ev.hostTest false = Ev.removeBackup) with h | h | h
                    · simp at h
                    · exact absurd h hnoh
                    · cases h
                · intro e he hf
                  refine ⟨by simp, rfl, ?_⟩
                  intro b hb
                  rcases (by simpa [or_assoc] using hb :
                      Ev.renameAside b ∈ ([Ev.backup true,
                        Ev.update (packageToDeploy pkgs) true] : List Ev)
                      ∨ Ev.renameAside b ∈ (RunPluginChecks co (pkgKeys pkgs)).trace
                      ∨ Ev.renameAside b = Ev.removeBackup) with h | h | h
                  · simp at h
                  · exact absurd h (hnor b)
                  · cases h
              · -- revert = true: restore runs
                have hhost : Ev.hostTest false ∈ (RunPluginChecks co (pkgKeys pkgs)).trace :=
                  (rpc_revert_iff co (pkgKeys pkgs)).1.mp hrev
                rcases hres : restoreMasterGopath o master o.updatedContent with ⟨m2, oe2, revs⟩
                have hren : Ev.renameAside o.renameOk ∈ revs := by
                  have := restore_rename_mem o master o.updatedContent
                  rw [hres] at this
                  exact this
                have hrevs_mem : ∀ e, e ∈ revs →
                    (∃ ok, e = Ev.renameAside ok) ∨ (∃ ok, e = Ev.copyBack ok) ∨
                    (∃ ok, e = Ev.deleteOld ok) := by
                  intro e he
                  exact restore_mem o master o.updatedContent e (by rw [hres]; exact he)
                have hiff : ∀ (err2 : Option DeployErr) (m3 : Content),
                    ((∃ b, Ev.renameAside b ∈
                        ([Ev.backup true, Ev.update (packageToDeploy pkgs) true] ++
                          (RunPluginChecks co (pkgKeys pkgs)).trace ++ revs ++
                          [Ev.removeBackup])) ↔
                      Ev.hostTest false ∈
                        ([Ev.backup true, Ev.update (packageToDeploy pkgs) true] ++
                          (RunPluginChecks co (pkgKeys pkgs)).trace ++ revs ++
                          [Ev.removeBackup]))
                    ∧ (∀ e, e ∈ ([Ev.backup true, Ev.update (packageToDeploy pkgs) true] ++
                          (RunPluginChecks co (pkgKeys pkgs)).trace ++ revs ++
                          [Ev.removeBackup]) → isNonHostFailEv e = true →
                        err2 ≠ none ∧ m3 = o.updatedContent
                        ∧ ∀ b, Ev.renameAside b ∉
                            ([Ev.backup true, Ev.update (packageToDeploy pkgs) true] ++
                              (RunPluginChecks co (pkgKeys pkgs)).trace ++ revs ++
                              [Ev.removeBackup])) := by
                  intro err2 m3
                  constructor
                  · constructor
                    · intro _
                      simp only [List.mem_append]
                      exact Or.inl (Or.inl (Or.inr hhost))
                    · intro _
                      refine ⟨o.renameOk, ?_⟩
                      simp only [List.mem_append]
                      exact Or.inl (Or.inr hren)
                  · intro e he hf
                    rcases (by simpa [or_assoc] using he :
                        e ∈ ([Ev.backup true, Ev.update (packageToDeploy pkgs) true] : List Ev)
                        ∨ e ∈ (RunPluginChecks co (pkgKeys pkgs)).trace
                        ∨ e ∈ revs
                        ∨ e = Ev.removeBackup) with h | h | h | h
                    · simp only [List.mem_cons, List.not_mem_nil, or_false] at h
                      rcases h with rfl | rfl <;> simp [isNonHostFailEv] at hf
                    · have := (rpc_fail co (pkgKeys pkgs) e h hf).2
                      rw [hrev] at this
                      cases this
                    · rcases hrevs_mem e h with ⟨ok, rfl⟩ | ⟨ok, rfl⟩ | ⟨ok, rfl⟩ <;>
                        simp [isNonHostFailEv] at hf
                    · rw [h] at hf; simp [isNonHostFailEv] at hf
                rcases oe2 with _ | re
                · have hred : deployRunAndDecide o co pkgs master o.updatedContent =
                      ⟨m2, some (.checkFailed e0),
                       [Ev.backup true, Ev.update (packageToDeploy pkgs) true] ++
                         (RunPluginChecks co (pkgKeys pkgs)).trace ++ revs ++
                         [Ev.removeBackup]⟩ := by
                    rw [deployRunAndDecide]
                    simp only [her, hrev, hres]
                  rw [hred]
                  exact hiff (some (.checkFailed e0)) m2
                · have hred : deployRunAndDecide o co pkgs master o.updatedContent =
                      ⟨m2, some (.checkAndRestoreFailed e0 re),
                       [Ev.backup true, Ev.update (packageToDeploy pkgs) true] ++
                         (RunPluginChecks co (pkgKeys pkgs)).trace ++ revs ++
                         [Ev.removeBackup]⟩ := by
                    rw [deployRunAndDecide]
                    simp only [her, hrev, hres]
                  rw [hred]
                  exact hiff (some (.checkAndRestoreFailed e0 re)) m2
          · rw [if_neg hup]
            constructor
            · constructor
              · rintro ⟨b, hb⟩; simp at hb
              · intro hb; simp at hb
            · intro e he hf
              simp only [List.mem_cons, List.not_mem_nil, or_false] at he
              rcases he with rfl | rfl | rfl <;> simp [isNonHostFailEv] at hf
        · rw [if_neg hbk]
          constructor
          · constructor
            · rintro ⟨b, hb⟩; simp at hb
            · intro hb; simp at hb
          · intro e he hf
            simp only [List.mem_cons, List.not_mem_nil, or_false] at he
            rcases he with rfl; simp [isNonHostFailEv] at hf
      · rw [if_neg h2]
        exact ⟨by simp, fun e he hf => by simp at he⟩
    · rw [if_neg h1]
      exact ⟨by simp, fun e he hf => by simp at he⟩

/-- Witness for the rollback-iff-host-compatibility theorem: with a
failing static-analysis step the deploy errors out, the cache keeps the
updated content 42, and no restoration event occurs. -/
theorem deploy_rollback_iff_hostcompat_witness :
    (Deploy ⟨true, true, 42, 99, true, true, 7, true⟩
        ⟨fun _ => false, fun _ => true, fun _ => true, true, true, [], fun _ _ => true⟩
        [(CaddyPackage, "master"), ("example.com/p", "v1")] 5).err ≠ none
    ∧ (Deploy ⟨true, true, 42, 99, true, true, 7, true⟩
        ⟨fun _ => false, fun _ => true, fun _ => true, true, true, [], fun _ _ => true⟩
        [(CaddyPackage, "master"), ("example.com/p", "v1")] 5).master = 42
    ∧ ∀ b, Ev.renameAside b ∉ (Deploy ⟨true, true, 42, 99, true, true, 7, true⟩
        ⟨fun _ => false, fun _ => true, fun _ => true, true, true, [], fun _ _ => true⟩
        [(CaddyPackage, "master"), ("example.com/p", "v1")] 5).trace :=
  (deploy_rollback_iff_hostcompat ⟨true, true, 42, 99, true, true, 7, true⟩
    ⟨fun _ => false, fun _ => true, fun _ => true, true, true, [], fun _ _ => true⟩
    [(CaddyPackage, "master"), ("example.com/p", "v1")] 5).2
    (Ev.vet "example.com/p" false) (by decide) (by decide)

theorem deploy_restore_success_master (o : DeployOracle) (co : CheckOracle)
    (h1 : o.renameOk = true) (h2 : o.copyBackOk = true) (h3 : o.deleteOldOk = true) :
    ∀ (pkgs : List (String × String)) (master : Content),
      (∃ b, Ev.renameAside b ∈ (Deploy o co pkgs master).trace) →
      (Deploy o co pkgs master).master = master := by
  intro pkgs master hex
  rw [Deploy] at hex ⊢
  by_cases h0 : pkgs.length = 0
  · rw [if_pos h0] at hex ⊢
  · rw [if_neg h0] at hex ⊢
    by_cases hvalid : pkgs.length = 1 ∨ pkgs.length = 2
    · rw [if_pos hvalid] at hex ⊢
      by_cases hcad : CaddyPackage ∈ pkgKeys pkgs
      · rw [if_pos hcad] at hex ⊢
        by_cases hbk : o.backupOk = true
        · rw [if_pos hbk] at hex ⊢
          by_cases hup : o.updateOk = true
          · rw [if_pos hup] at hex ⊢
            have hnor : ∀ b, Ev.renameAside b ∉
                (RunPluginChecks co (pkgKeys pkgs)).trace := by
              intro b hmem
              have := rpc_events co (pkgKeys pkgs) _ hmem
              simp [isCheckEv] at this
            rw [deployRunAndDecide] at hex ⊢
            rcases her : (RunPluginChecks co (pkgKeys pkgs)).err with _ | e0 <;>
              rw [her] at hex
            · rcases hex with ⟨b, hb⟩
              rcases (by simpa [or_assoc] using hb :
                  Ev.renameAside b ∈ ([Ev.backup true,
                    Ev.update (packageToDeploy pkgs) true] : List Ev)
                  ∨ Ev.renameAside b ∈ (RunPluginChecks co (pkgKeys pkgs)).trace
                  ∨ Ev.renameAside b = Ev.removeBackup) with h | h | h
              · simp at h
              · exact absurd h (hnor b)
              · cases h
            · rcases hrev : (RunPluginChecks co (pkgKeys pkgs)).revert with _ | _ <;>
                rw [hrev] at hex
              · rcases hex with ⟨b, hb⟩
                rcases (by simpa [or_assoc] using hb :
                    Ev.renameAside b ∈ ([Ev.backup true,
                      Ev.update (packageToDeploy pkgs) true] : List Ev)
                    ∨ Ev.renameAside b ∈ (RunPluginChecks co (pkgKeys pkgs)).trace
                    ∨ Ev.renameAside b = Ev.removeBackup) with h | h | h
                · simp at h
                · exact absurd h (hnor b)
                · cases h
              · rw [restore_ok o master o.updatedContent h1 h2 h3] at hex ⊢
          · rw [if_neg hup] at hex ⊢
            rcases hex with ⟨b, hb⟩
            simp at hb
        · rw [if_neg hbk] at hex ⊢
      · rw [if_neg hcad] at hex ⊢
    · rw [if_neg hvalid] at hex ⊢

/-- C2: when the host-compatibility check of a deploy fails and the
restoration succeeds, the cache afterwards is byte-identical to the
cache before the transaction (the same content snapshot) — in general,
whenever the restoration steps all succeed, any deploy whose trace shows
a restoration ends with the cache at its pre-transaction snapshot; the
restoration events are exactly rename-aside, copy-back, delete-old in
that order, and the deploy reports the check failure; when the
restoration itself fails, the combined error is returned to the caller
and the restoration was started exactly once — no automatic retry. -/
theorem deploy_restore_byte_identical (o : DeployOracle) (co : CheckOracle)
    (vc p vp : String) (master : Content)
    (hp : p ≠ CaddyPackage)
    (hv : co.vetOk p = true) (ht : co.testOk p = true) (hpl : co.plugOk p = true)
    (hh : co.hostTestOk = false)
    (hbk : o.backupOk = true) (hup : o.updateOk = true) :
    (o.renameOk = true → o.copyBackOk = true → o.deleteOldOk = true →
      (Deploy o co [(CaddyPackage, vc), (p, vp)] master).master = master
      ∧ (Deploy o co [(CaddyPackage, vc), (p, vp)] master).err =
          some (.checkFailed .hostTestFailed)
      ∧ (Deploy o co [(CaddyPackage, vc), (p, vp)] master).trace =
          [.backup true, .update p true, .vet p true, .test p true, .plugin p true,
           .hostTest false, .renameAside true, .copyBack true, .deleteOld true,
           .removeBackup])
    ∧ (¬(o.renameOk = true ∧ o.copyBackOk = true ∧ o.deleteOldOk = true) →
      (∃ re, (Deploy o co [(CaddyPackage, vc), (p, vp)] master).err =
          some (.checkAndRestoreFailed .hostTestFailed re))
      ∧ ((Deploy o co [(CaddyPackage, vc), (p, vp)] master).trace.filter
          isRenameAsideEv).length = 1)
    ∧ (o.renameOk = true → o.copyBackOk = true → o.deleteOldOk = true →
      ∀ (pkgs' : List (String × String)) (master' : Content),
        (∃ b, Ev.renameAside b ∈ (Deploy o co pkgs' master').trace) →
        (Deploy o co pkgs' master').master = master') := by
  have hrpc : RunPluginChecks co (pkgKeys [(CaddyPackage, vc), (p, vp)]) =
      ⟨true, some .hostTestFailed,
       [.vet p true, .test p true, .plugin p true, .hostTest false]⟩ := by
    simp [pkgKeys, RunPluginChecks, hp, hv, ht, hpl, hh]
  have hbne : (p != CaddyPackage) = true := bne_iff_ne.mpr hp
  have hp2d : packageToDeploy [(CaddyPackage, vc), (p, vp)] = p := by
    simp [packageToDeploy, pkgKeys, List.find?, hbne]
  have hdep : Deploy o co [(CaddyPackage, vc), (p, vp)] master =
      deployRunAndDecide o co [(CaddyPackage, vc), (p, vp)] master o.updatedContent := by
    rw [Deploy]
    rw [if_neg (by simp), if_pos (by simp), if_pos (by simp [pkgKeys]),
      if_pos hbk, if_pos hup]
  refine ⟨?_, ?_, fun h1 h2 h3 => deploy_restore_success_master o co h1 h2 h3⟩
  · intro h1 h2 h3
    have hres := restore_ok o master o.updatedContent h1 h2 h3
    rw [hdep, deployRunAndDecide]
    simp [hrpc, hres, hp2d]
  · intro hno
    rw [hdep, deployRunAndDecide]
    simp only [hrpc, hp2d]
    by_cases h1 : o.renameOk = false
    · have hres : restoreMasterGopath o master o.updatedContent =
          (o.updatedContent, some .renameFailed, [.renameAside false]) := by
        rw [restoreMasterGopath, if_pos h1]
      simp only [hres]
      exact ⟨⟨.renameFailed, rfl⟩, by simp [isRenameAsideEv]⟩
    · have h1' : o.renameOk = true := by revert h1; cases o.renameOk <;> simp
      by_cases h2 : o.copyBackOk = false
      · have hres : restoreMasterGopath o master o.updatedContent =
            (o.copyRemnant, some .copyFailed, [.renameAside true, .copyBack false]) := by
          rw [restoreMasterGopath, if_neg h1, if_pos h2]
        simp only [hres]
        exact ⟨⟨.copyFailed, rfl⟩, by simp [isRenameAsideEv]⟩
      · have h2' : o.copyBackOk = true := by revert h2; cases o.copyBackOk <;> simp
        by_cases h3 : o.deleteOldOk = false
        · have hres : restoreMasterGopath o master o.updatedContent =
              (master, some .deleteFailed,
               [.renameAside true, .copyBack true, .deleteOld false]) := by
            rw [restoreMasterGopath, if_neg h1, if_neg h2, if_pos h3]
          simp only [hres]
          exact ⟨⟨.deleteFailed, rfl⟩, by simp [isRenameAsideEv]⟩
        · have h3' : o.deleteOldOk = true := by revert h3; cases o.deleteOldOk <;> simp
          exact absurd ⟨h1', h2', h3'⟩ hno

/-- Witness for the restore theorem at a concrete failing host test with
a fully successful restoration. -/
theorem deploy_restore_byte_identical_witness :
    (Deploy ⟨true, true, 42, 99, true, true, 7, true⟩
        ⟨fun _ => true, fun _ => true, fun _ => true, false, true, [], fun _ _ => true⟩
        [(CaddyPackage, "v1"), ("example.com/p", "v2")] 5).master = 5
    ∧ (Deploy ⟨true, true, 42, 99, true, true, 7, true⟩
        ⟨fun _ => true, fun _ => true, fun _ => true, false, true, [], fun _ _ => true⟩
        [(CaddyPackage, "v1"), ("example.com/p", "v2")] 5).err =
        some (.checkFailed .hostTestFailed)
    ∧ (Deploy ⟨true, true, 42, 99, true, true, 7, true⟩
        ⟨fun _ => true, fun _ => true, fun _ => true, false, true, [], fun _ _ => true⟩
        [(CaddyPackage, "v1"), ("example.com/p", "v2")] 5).trace =
        [.backup true, .update "example.com/p" true, .vet "example.com/p" true,
         .test "example.com/p" true, .plugin "example.com/p" true, .hostTest false,
         .renameAside true, .copyBack true, .deleteOld true, .removeBackup] :=
  (deploy_restore_byte_identical ⟨true, true, 42, 99, true, true, 7, true⟩
    ⟨fun _ => true, fun _ => true, fun _ => true, false, true, [], fun _ _ => true⟩
    "v1" "example.com/p" "v2" 5 (by decide) rfl rfl rfl rfl rfl rfl).1 rfl rfl rfl

/-- C3: the deploy refuses (with an error, before doing anything) unless
the package map has size 1 or 2 and contains the host package; with size
1 the deploy target is the host package, with size 2 it is the unique
non-host package; and every transaction runs at most one update, always
against that single target — never both. -/
theorem deploy_single_target (o : DeployOracle) (co : CheckOracle)
    (pkgs : List (String × String)) (master : Content) :
    (¬((pkgs.length = 1 ∨ pkgs.length = 2) ∧ CaddyPackage ∈ pkgKeys pkgs) →
      (Deploy o co pkgs master).err ≠ none ∧ (Deploy o co pkgs master).trace = [])
    ∧ (pkgs.length = 1 → packageToDeploy pkgs = CaddyPackage)
    ∧ (pkgs.length = 2 → CaddyPackage ∈ pkgKeys pkgs → (pkgKeys pkgs).Nodup →
        ∀ k ∈ pkgKeys pkgs, k ≠ CaddyPackage → packageToDeploy pkgs = k)
    ∧ (∀ q b, Ev.update q b ∈ (Deploy o co pkgs master).trace →
        q = packageToDeploy pkgs)
    ∧ ((Deploy o co pkgs master).trace.filter isUpdateEv).length ≤ 1 := by
  have hupd_main : ∀ q b, Ev.update q b ∈
        (deployRunAndDecide o co pkgs master o.updatedContent).trace →
      q = packageToDeploy pkgs := by
    intro q b hmem
    have hrtr : ∀ q' b', Ev.update q' b' ∉ (RunPluginChecks co (pkgKeys pkgs)).trace := by
      intro q' b' hmem'
      have := rpc_events co (pkgKeys pkgs) _ hmem'
      simp [isCheckEv] at this
    rw [deployRunAndDecide] at hmem
    rcases her : (RunPluginChecks co (pkgKeys pkgs)).err with _ | e0 <;>
      rw [her] at hmem
    · simp [hrtr q b] at hmem
      exact hmem.1
    · rcases hrev : (RunPluginChecks co (pkgKeys pkgs)).revert with _ | _ <;>
        rw [hrev] at hmem
      · simp [hrtr q b] at hmem
        exact hmem.1
      · rcases hres : restoreMasterGopath o master o.updatedContent with ⟨m2, oe2, revs⟩
        rw [hres] at hmem
        have hnorevs : Ev.update q b ∉ revs := by
          intro hmem'
          rcases restore_mem o master o.updatedContent _ (by rw [hres]; exact hmem')
            with ⟨ok, h⟩ | ⟨ok, h⟩ | ⟨ok, h⟩ <;> cases h
        rcases oe2 with _ | re <;>
          · simp [hrtr q b, hnorevs] at hmem
            exact hmem.1
  have hcount_main :
      ((deployRunAndDecide o co pkgs master o.updatedContent).trace.filter
        isUpdateEv).length ≤ 1 := by
    have hrtr : (RunPluginChecks co (pkgKeys pkgs)).trace.filter isUpdateEv = [] := by
      rw [List.filter_eq_nil_iff]
      intro e he
      have := rpc_events co (pkgKeys pkgs) _ he
      revert this
      cases e <;> simp [isCheckEv, isUpdateEv]
    rw [deployRunAndDecide]
    rcases her : (RunPluginChecks co (pkgKeys pkgs)).err with _ | e0
    · simp [List.filter_append, hrtr, isUpdateEv]
    · rcases hrev : (RunPluginChecks co (pkgKeys pkgs)).revert with _ | _
      · simp [List.filter_append, hrtr, isUpdateEv]
      · rcases hres : restoreMasterGopath o master o.updatedContent with ⟨m2, oe2, revs⟩
        have hnorevs : revs.filter isUpdateEv = [] := by
          rw [List.filter_eq_nil_iff]
          intro e he
          rcases restore_mem o master o.updatedContent _ (by rw [hres]; exact he)
            with ⟨ok, h⟩ | ⟨ok, h⟩ | ⟨ok, h⟩ <;> simp [h, isUpdateEv]
        rcases oe2 with _ | re <;>
          simp [List.filter_append, hrtr, hnorevs, isUpdateEv]
  refine ⟨?_, ?_, ?_, ?_, ?_⟩
  · intro hinv
    rw [Deploy]
    by_cases h0 : pkgs.length = 0
    · rw [if_pos h0]
      exact ⟨by simp, rfl⟩
    · rw [if_neg h0]
      by_cases h1 : pkgs.length = 1 ∨ pkgs.length = 2
      · rw [if_pos h1]
        by_cases h2 : CaddyPackage ∈ pkgKeys pkgs
        · exact absurd ⟨h1, h2⟩ hinv
        · rw [if_neg h2]
          exact ⟨by simp, rfl⟩
      · rw [if_neg h1]
        exact ⟨by simp, rfl⟩
  · intro h1
    rw [packageToDeploy, if_pos h1]
  · intro h2 hcad hnd k hk hkne
    match pkgs, h2 with
    | [x, y], _ =>
      have hxy : x.1 ≠ y.1 := by
        simp [pkgKeys] at hnd
        exact hnd
      rw [packageToDeploy]
      rw [if_neg (by simp), if_pos (by simp)]
      simp only [pkgKeys, List.map, List.mem_cons, List.not_mem_nil, or_false]
        at hcad hk
      by_cases hx : x.1 = CaddyPackage
      · have hy : y.1 ≠ CaddyPackage := fun h => hxy (by rw [hx, h])
        have hk' : k = y.1 := by
          rcases hk with h | h
          · exact absurd (h.trans hx) hkne
          · exact h
        have hfind : List.find? (fun k => k != CaddyPackage) (pkgKeys [x, y]) =
            some y.1 := by
          have hbx : (x.1 != CaddyPackage) = false := by simp [hx]
          have hby : (y.1 != CaddyPackage) = true := bne_iff_ne.mpr hy
          simp [pkgKeys, List.find?, hbx, hby]
        rw [hfind]
        exact hk'.symm
      · have hy : y.1 = CaddyPackage := by
          rcases hcad with h | h
          · exact absurd h.symm hx
          · exact h.symm
        have hk' : k = x.1 := by
          rcases hk with h | h
          · exact h
          · rw [h, hy] at hkne; exact absurd rfl hkne
        have hfind : List.find? (fun k => k != CaddyPackage) (pkgKeys [x, y]) =
            some x.1 := by
          have hbx : (x.1 != CaddyPackage) = true := bne_iff_ne.mpr hx
          simp [pkgKeys, List.find?, hbx]
        rw [hfind]
        exact hk'.symm
  · intro q b hmem
    rw [Deploy] at hmem
    by_cases h0 : pkgs.length = 0
    · rw [if_pos h0] at hmem; simp at hmem
    · rw [if_neg h0] at hmem
      by_cases h1 : pkgs.length = 1 ∨ pkgs.length = 2
      · rw [if_pos h1] at hmem
        by_cases h2 : CaddyPackage ∈ pkgKeys pkgs
        · rw [if_pos h2] at hmem
          by_cases hbk : o.backupOk = true
          · rw [if_pos hbk] at hmem
            by_cases hup : o.updateOk = true
            · rw [if_pos hup] at hmem
              exact hupd_main q b hmem
            · rw [if_neg hup] at hmem
              simp at hmem
              exact hmem.1
          · rw [if_neg hbk] at hmem
            simp at hmem
        · rw [if_neg h2] at hmem; simp at hmem
      · rw [if_neg h1] at hmem; simp at hmem
  · rw [Deploy]
    by_cases h0 : pkgs.length = 0
    · rw [if_pos h0]; simp
    · rw [if_neg h0]
      by_cases h1 : pkgs.length = 1 ∨ pkgs.length = 2
      · rw [if_pos h1]
        by_cases h2 : CaddyPackage ∈ pkgKeys pkgs
        · rw [if_pos h2]
          by_cases hbk : o.backupOk = true
          · rw [if_pos hbk]
            by_cases hup : o.updateOk = true
            · rw [if_pos hup]
              exact hcount_main
            · rw [if_neg hup]
              simp [isUpdateEv]
          · rw [if_neg hbk]
            simp [isUpdateEv]
        · rw [if_neg h2]; simp
      · rw [if_neg h1]; simp

/-- Witness for the single-target theorem: a two-entry map deploys
exactly the non-host package. -/
theorem deploy_single_target_witness :
    packageToDeploy [(CaddyPackage, "master"), ("example.com/p", "v1")] = "example.com/p"
    ∧ ((Deploy ⟨true, true, 42, 99, true, true, 7, true⟩
        ⟨fun _ => true, fun _ => true, fun _ => true, true, true, [], fun _ _ => true⟩
        [("x", "v")] 5).err ≠ none
      ∧ (Deploy ⟨true, true, 42, 99, true, true, 7, true⟩
        ⟨fun _ => true, fun _ => true, fun _ => true, true, true, [], fun _ _ => true⟩
        [("x", "v")] 5).trace = []) := by
  constructor
  · exact (deploy_single_target ⟨true, true, 42, 99, true, true, 7, true⟩
      ⟨fun _ => true, fun _ => true, fun _ => true, true, true, [], fun _ _ => true⟩
      [(CaddyPackage, "master"), ("example.com/p", "v1")] 5).2.2.1 rfl (by decide)
      (by decide) "example.com/p" (by decide) (by decide)
  · exact (deploy_single_target ⟨true, true, 42, 99, true, true, 7, true⟩
      ⟨fun _ => true, fun _ => true, fun _ => true, true, true, [], fun _ _ => true⟩
      [("x", "v")] 5).1 (by decide)

/-- C7: one plugin-check run executes exactly the ordered step list
static analysis, test suite, module injection, host compatibility, then
one cross-platform compile per catalog platform, under the fast-fail
runner: the first failing step is the last event, aborting everything
after it; and the run succeeds exactly when every pipeline step
passes. -/
theorem checkPipeline_step_order (co : CheckOracle) (pkg : String)
    (hcad : pkg ≠ CaddyPackage) (hd : co.distListOk = true) :
    (RunPluginChecks co [pkg]).trace =
      (fastFail (stepOutcome co pkg) (pipelineSteps co.rawPlatforms)).map (stepToEv pkg)
    ∧ ((RunPluginChecks co [pkg]).err = none ↔
        ∀ s ∈ pipelineSteps co.rawPlatforms, stepOutcome co pkg s = true) := by
  have hgbc : goBuildChecks co pkg =
      goBuildChecksRun co pkg (SupportedPlatforms co.rawPlatforms UnsupportedPlatforms) := by
    rw [goBuildChecks, if_pos hd]
  by_cases hv : co.vetOk pkg = false
  · have hrpc : RunPluginChecks co [pkg] =
        ⟨false, some (.vetFailed pkg), [.vet pkg false]⟩ := by
      simp [RunPluginChecks, hcad, hv]
    rw [hrpc]
    constructor
    · simp [pipelineSteps, fastFail, stepOutcome, hv, stepToEv]
    · constructor
      · intro he; cases he
      · intro hall
        have := hall .staticAnalysis (by simp [pipelineSteps])
        rw [stepOutcome, hv] at this
        cases this
  · have hv' : co.vetOk pkg = true := by revert hv; cases co.vetOk pkg <;> simp
    by_cases ht : co.testOk pkg = false
    · have hrpc : RunPluginChecks co [pkg] =
          ⟨false, some (.testFailed pkg), [.vet pkg true, .test pkg false]⟩ := by
        simp [RunPluginChecks, hcad, hv, ht]
      rw [hrpc]
      constructor
      · simp [pipelineSteps, fastFail, stepOutcome, hv', ht, stepToEv]
      · constructor
        · intro he; cases he
        · intro hall
          have := hall .testSuite (by simp [pipelineSteps])
          rw [stepOutcome, ht] at this
          cases this
    · have ht' : co.testOk pkg = true := by revert ht; cases co.testOk pkg <;> simp
      by_cases hpl : co.plugOk pkg = false
      · have hrpc : RunPluginChecks co [pkg] =
            ⟨false, some (.plugFailed pkg),
             [.vet pkg true, .test pkg true, .plugin pkg false]⟩ := by
          simp [RunPluginChecks, hcad, hv, ht, hpl]
        rw [hrpc]
        constructor
        · simp [pipelineSteps, fastFail, stepOutcome, hv', ht', hpl, stepToEv]
        · constructor
          · intro he; cases he
          · intro hall
            have := hall .injectModule (by simp [pipelineSteps])
            rw [stepOutcome, hpl] at this
            cases this
      · have hpl' : co.plugOk pkg = true := by revert hpl; cases co.plugOk pkg <;> simp
        by_cases hh : co.hostTestOk = false
        · have hrpc : RunPluginChecks co [pkg] =
              ⟨true, some .hostTestFailed,
               [.vet pkg true, .test pkg true, .plugin pkg true, .hostTest false]⟩ := by
            simp [RunPluginChecks, hcad, hv, ht, hpl, hh]
          rw [hrpc]
          constructor
          · simp [pipelineSteps, fastFail, stepOutcome, hv', ht', hpl', hh, stepToEv]
          · constructor
            · intro he; cases he
            · intro hall
              have := hall .hostCompat (by simp [pipelineSteps])
              rw [stepOutcome, hh] at this
              cases this
        · have hh' : co.hostTestOk = true := by revert hh; cases co.hostTestOk <;> simp
          rcases hgb : goBuildChecksRun co pkg
              (SupportedPlatforms co.rawPlatforms UnsupportedPlatforms) with ⟨oe, bevs⟩
          have hbevs : bevs =
              (fastFail (stepOutcome co pkg)
                ((SupportedPlatforms co.rawPlatforms UnsupportedPlatforms).map
                  .crossCompile)).map (stepToEv pkg) := by
            have := gbcr_trace_spec co pkg
              (SupportedPlatforms co.rawPlatforms UnsupportedPlatforms)
            rw [hgb] at this
            exact this
          have hoe : oe = none ↔
              ∀ p ∈ SupportedPlatforms co.rawPlatforms UnsupportedPlatforms,
                co.buildOk pkg p = true := by
            have := gbcr_ok_iff co pkg
              (SupportedPlatforms co.rawPlatforms UnsupportedPlatforms)
            rw [hgb] at this
            exact this
          have hfast : fastFail (stepOutcome co pkg) (pipelineSteps co.rawPlatforms) =
              [(.staticAnalysis, true), (.testSuite, true), (.injectModule, true),
               (.hostCompat, true)] ++
                fastFail (stepOutcome co pkg)
                  ((SupportedPlatforms co.rawPlatforms UnsupportedPlatforms).map
                    .crossCompile) := by
            simp [pipelineSteps, fastFail, stepOutcome, hv', ht', hpl', hh']
          rcases oe with _ | e0
          · have hrpc : RunPluginChecks co [pkg] =
                ⟨false, none,
                 [.vet pkg true, .test pkg true, .plugin pkg true, .hostTest true] ++
                   bevs ++ []⟩ := by
              simp only [RunPluginChecks, if_neg hcad, if_neg (by simp [hv'] :
                  ¬ co.vetOk pkg = false), if_neg (by simp [ht'] : ¬ co.testOk pkg = false),
                if_neg (by simp [hpl'] : ¬ co.plugOk pkg = false),
                if_neg (by simp [hh'] : ¬ co.hostTestOk = false), hgbc, hgb]
            rw [hrpc, hfast, hbevs]
            constructor
            · simp [stepToEv]
            · constructor
              · intro _
                intro s hs
                simp only [pipelineSteps, List.mem_append, List.mem_cons,
                  List.not_mem_nil, or_false, List.mem_map] at hs
                rcases hs with ((rfl | rfl | rfl | rfl) | ⟨p, hp, rfl⟩)
                · exact hv'
                · exact ht'
                · exact hpl'
                · exact hh'
                · exact hoe.mp rfl p hp
              · intro _; rfl
          · have hrpc : RunPluginChecks co [pkg] =
                ⟨false, some e0,
                 [.vet pkg true, .test pkg true, .plugin pkg true, .hostTest true] ++
                   bevs⟩ := by
              simp only [RunPluginChecks, if_neg hcad, if_neg (by simp [hv'] :
                  ¬ co.vetOk pkg = false), if_neg (by simp [ht'] : ¬ co.testOk pkg = false),
                if_neg (by simp [hpl'] : ¬ co.plugOk pkg = false),
                if_neg (by simp [hh'] : ¬ co.hostTestOk = false), hgbc, hgb]
            rw [hrpc, hfast, hbevs]
            constructor
            · simp [stepToEv]
            · constructor
              · intro he; cases he
              · intro hall
                have hbuild : ∀ p ∈ SupportedPlatforms co.rawPlatforms UnsupportedPlatforms,
                    co.buildOk pkg p = true := by
                  intro p hp
                  have := hall (.crossCompile p) (by
                    simp only [pipelineSteps, List.mem_append, List.mem_map]
                    exact Or.inr ⟨p, hp, rfl⟩)
                  exact this
                have := hoe.mpr hbuild
                cases this

/-- Witness for the step-order theorem at a concrete oracle whose test
suite fails: the trace stops right after the failing test step. -/
theorem checkPipeline_step_order_witness :
    (RunPluginChecks ⟨fun _ => true, fun _ => false, fun _ => true, true, true,
        [⟨"linux", "amd64", "", true⟩], fun _ _ => true⟩ ["example.com/p"]).trace =
      (fastFail (stepOutcome ⟨fun _ => true, fun _ => false, fun _ => true, true, true,
          [⟨"linux", "amd64", "", true⟩], fun _ _ => true⟩ "example.com/p")
        (pipelineSteps [⟨"linux", "amd64", "", true⟩])).map (stepToEv "example.com/p") :=
  (checkPipeline_step_order ⟨fun _ => true, fun _ => false, fun _ => true, true, true,
      [⟨"linux", "amd64", "", true⟩], fun _ _ => true⟩ "example.com/p"
    (by decide) rfl).1

/-! ## Provisioning lemmas -/

theorem wsLookup_wsInsert_self (ws : Workspace) (k : String) (e : WsEntry) :
    wsLookup (wsInsert ws k e) k = some e := by
  induction ws with
  | nil => simp [wsInsert, wsLookup]
  | cons kv rest ih =>
    by_cases h : kv.1 = k
    · simp [wsInsert, wsLookup, h]
    · simp [wsInsert, wsLookup, h, ih]

theorem wsLookup_wsInsert_other (ws : Workspace) (k k' : String) (e : WsEntry)
    (h : k' ≠ k) : wsLookup (wsInsert ws k e) k' = wsLookup ws k' := by
  have hne : ¬ k = k' := fun h' => h h'.symm
  induction ws with
  | nil =>
    simp only [wsInsert, wsLookup]
    rw [if_neg hne]
  | cons kv rest ih =>
    by_cases hkv : kv.1 = k
    · simp only [wsInsert, if_pos hkv, wsLookup]
      rw [if_neg hne, if_neg (show ¬ kv.1 = k' by rw [hkv]; exact hne)]
    · simp only [wsInsert, if_neg hkv, wsLookup]
      by_cases hkv' : kv.1 = k'
      · rw [if_pos hkv', if_pos hkv']
      · rw [if_neg hkv', if_neg hkv', ih]

theorem wsLookup_wsUpdate_self (ws : Workspace) (k : String) (f : WsEntry → WsEntry) :
    wsLookup (wsUpdate ws k f) k = (wsLookup ws k).map f := by
  induction ws with
  | nil => simp [wsUpdate, wsLookup]
  | cons kv rest ih =>
    by_cases h : kv.1 = k
    · simp [wsUpdate, wsLookup, h]
    · simp [wsUpdate, wsLookup, h, ih]

theorem wsLookup_wsUpdate_other (ws : Workspace) (k k' : String) (f : WsEntry → WsEntry)
    (h : k' ≠ k) : wsLookup (wsUpdate ws k f) k' = wsLookup ws k' := by
  have hne : ¬ k = k' := fun h' => h h'.symm
  induction ws with
  | nil => simp [wsUpdate, wsLookup]
  | cons kv rest ih =>
    by_cases hkv : kv.1 = k
    · simp only [wsUpdate, if_pos hkv, wsLookup]
      rw [if_neg hne, if_neg (show ¬ kv.1 = k' by rw [hkv]; exact hne)]
    · simp only [wsUpdate, if_neg hkv, wsLookup]
      by_cases hkv' : kv.1 = k'
      · rw [if_pos hkv', if_pos hkv']
      · rw [if_neg hkv', if_neg hkv', ih]

theorem provisionPkg_ok_spec (o : ProvisionOracle) (ws : Workspace) (p v : String)
    (h1 : o.copyOk p = true) (h2 : o.fetchOk p = true) (h3 : o.checkoutOk p = true)
    (h4 : o.getOk p = true) :
    provisionPkg o ws p v =
      (wsUpdate (wsUpdate (wsUpdate
          (wsInsert ws p ⟨true, false, some (o.cacheVersion p), false⟩)
          p (fun e => { e with fetched := true }))
          p (fun e => { e with version := some v }))
          p (fun e => { e with depsResolved := true }),
       none,
       [.copy p true, .fetch p true, .checkout p v true, .goGet p true]) := by
  rw [provisionPkg]
  rw [if_neg (by simp [h1]), if_neg (by simp [h2]), if_neg (by simp [h3]),
    if_neg (by simp [h4])]

theorem provisionPkg_err_of_fail (o : ProvisionOracle) (ws : Workspace) (p v : String)
    (h : ¬(o.copyOk p = true ∧ o.fetchOk p = true ∧ o.checkoutOk p = true ∧
        o.getOk p = true)) :
    (provisionPkg o ws p v).2.1 ≠ none := by
  rw [provisionPkg]
  by_cases h1 : o.copyOk p = false
  · rw [if_pos h1]; simp
  · have h1' : o.copyOk p = true := by revert h1; cases o.copyOk p <;> simp
    rw [if_neg h1]
    by_cases h2 : o.fetchOk p = false
    · rw [if_pos h2]; simp
    · have h2' : o.fetchOk p = true := by revert h2; cases o.fetchOk p <;> simp
      rw [if_neg h2]
      by_cases h3 : o.checkoutOk p = false
      · rw [if_pos h3]; simp
      · have h3' : o.checkoutOk p = true := by revert h3; cases o.checkoutOk p <;> simp
        rw [if_neg h3]
        by_cases h4 : o.getOk p = false
        · rw [if_pos h4]; simp
        · have h4' : o.getOk p = true := by revert h4; cases o.getOk p <;> simp
          exact absurd ⟨h1', h2', h3', h4'⟩ h

theorem provisionPkg_lookup_self (o : ProvisionOracle) (ws : Workspace) (p v : String)
    (h1 : o.copyOk p = true) (h2 : o.fetchOk p = true) (h3 : o.checkoutOk p = true)
    (h4 : o.getOk p = true) :
    wsLookup (provisionPkg o ws p v).1 p = some ⟨true, true, some v, true⟩ := by
  rw [provisionPkg_ok_spec o ws p v h1 h2 h3 h4]
  simp [wsLookup_wsUpdate_self, wsLookup_wsInsert_self]

theorem provisionPkg_frame (o : ProvisionOracle) (ws : Workspace) (p v q : String)
    (hq : q ≠ p) : wsLookup (provisionPkg o ws p v).1 q = wsLookup ws q := by
  rw [provisionPkg]
  by_cases h1 : o.copyOk p = false
  · rw [if_pos h1]
  · rw [if_neg h1]
    by_cases h2 : o.fetchOk p = false
    · rw [if_pos h2]
      exact wsLookup_wsInsert_other ws p q _ hq
    · rw [if_neg h2]
      by_cases h3 : o.checkoutOk p = false
      · rw [if_pos h3]
        rw [wsLookup_wsUpdate_other _ p q _ hq, wsLookup_wsInsert_other ws p q _ hq]
      · rw [if_neg h3]
        by_cases h4 : o.getOk p = false
        · rw [if_pos h4]
          rw [wsLookup_wsUpdate_other _ p q _ hq, wsLookup_wsUpdate_other _ p q _ hq,
            wsLookup_wsInsert_other ws p q _ hq]
        · rw [if_neg h4]
          rw [wsLookup_wsUpdate_other _ p q _ hq, wsLookup_wsUpdate_other _ p q _ hq,
            wsLookup_wsUpdate_other _ p q _ hq, wsLookup_wsInsert_other ws p q _ hq]

theorem provisionLoop_frame (o : ProvisionOracle) :
    ∀ (l : List (String × String)) (ws : Workspace) (q : String),
      q ∉ l.map Prod.fst →
      wsLookup (provisionLoop o ws l).1 q = wsLookup ws q := by
  intro l
  induction l with
  | nil => intro ws q _; rfl
  | cons pv rest ih =>
    intro ws q hq
    simp only [List.map, List.mem_cons, not_or] at hq
    rw [provisionLoop]
    rcases hpk : provisionPkg o ws pv.1 pv.2 with ⟨ws', oe, evs⟩
    have hfr : wsLookup ws' q = wsLookup ws q := by
      have := provisionPkg_frame o ws pv.1 pv.2 q hq.1
      rw [hpk] at this
      exact this
    rcases oe with _ | e
    · simp only []
      rw [ih ws' q hq.2, hfr]
    · simp only []
      exact hfr

theorem provisionLoop_ok (o : ProvisionOracle) :
    ∀ (l : List (String × String)) (ws : Workspace),
      (provisionLoop o ws l).2.1 = none →
      ((provisionLoop o ws l).2.2 =
        l.flatMap (fun pv => [PEv.copy pv.1 true, PEv.fetch pv.1 true,
          PEv.checkout pv.1 pv.2 true, PEv.goGet pv.1 true]))
      ∧ ((l.map Prod.fst).Nodup →
          ∀ pv ∈ l, wsLookup (provisionLoop o ws l).1 pv.1 =
            some ⟨true, true, some pv.2, true⟩) := by
  intro l
  induction l with
  | nil => intro ws _; simp [provisionLoop]
  | cons pv rest ih =>
    intro ws hok
    rw [provisionLoop] at hok ⊢
    rcases hpk : provisionPkg o ws pv.1 pv.2 with ⟨ws', oe, evs⟩
    rw [hpk] at hok
    rcases oe with _ | e
    · simp only [] at hok ⊢
      have hfour : o.copyOk pv.1 = true ∧ o.fetchOk pv.1 = true ∧
          o.checkoutOk pv.1 = true ∧ o.getOk pv.1 = true := by
        by_contra hno
        have := provisionPkg_err_of_fail o ws pv.1 pv.2 hno
        rw [hpk] at this
        exact this rfl
      have hspec := provisionPkg_ok_spec o ws pv.1 pv.2 hfour.1 hfour.2.1
        hfour.2.2.1 hfour.2.2.2
      rw [hpk] at hspec
      have hevs : evs = [PEv.copy pv.1 true, PEv.fetch pv.1 true,
          PEv.checkout pv.1 pv.2 true, PEv.goGet pv.1 true] :=
        congrArg (fun t => t.2.2) hspec
      constructor
      · rw [(ih ws' hok).1, hevs]
        simp
      · intro hnd pv' hpv'
        have hnd2 : (rest.map Prod.fst).Nodup := by
          simp only [List.map, List.nodup_cons] at hnd
          exact hnd.2
        have hnotin : pv.1 ∉ rest.map Prod.fst := by
          simp only [List.map, List.nodup_cons] at hnd
          exact hnd.1
        rcases List.mem_cons.mp hpv' with heq | hmem
        · rw [heq]
          rw [provisionLoop_frame o rest ws' pv.1 hnotin]
          have := provisionPkg_lookup_self o ws pv.1 pv.2 hfour.1 hfour.2.1
            hfour.2.2.1 hfour.2.2.2
          rw [hpk] at this
          exact this
        · exact (ih ws' hok).2 hnd2 pv' hmem
    · simp only [] at hok
      cases hok

theorem fillMasterGopath_ok (o : ProvisionOracle) :
    ∀ l, (fillMasterGopath o l).1 = none →
      (fillMasterGopath o l).2 = l.map (fun pv => PEv.fill pv.1 true) := by
  intro l
  induction l with
  | nil => intro _; rfl
  | cons pv rest ih =>
    intro hok
    rw [fillMasterGopath] at hok ⊢
    by_cases hf : o.fillOk pv.1 = true
    · rw [if_pos hf] at hok ⊢
      simp only [] at hok ⊢
      rw [ih hok]
      rfl
    · rw [if_neg hf] at hok
      cases hok

/-- C4: when provisioning returns without error, the ephemeral workspace
holds, for every module of the package map, a copy checked out at
exactly the requested version with its dependencies resolved, and the
per-module events are exactly copy, fetch, checkout-at-version,
dependency resolution, in that order, all successful. -/
theorem provision_exact_versions (o : ProvisionOracle) (pkgs : List (String × String))
    (hnd : (pkgs.map Prod.fst).Nodup)
    (hok : (provision o pkgs).2.1 = none) :
    (∀ pv ∈ pkgs, wsLookup (provision o pkgs).1 pv.1 =
        some ⟨true, true, some pv.2, true⟩)
    ∧ (provision o pkgs).2.2 =
        pkgs.map (fun pv => PEv.fill pv.1 true) ++
        pkgs.flatMap (fun pv => [PEv.copy pv.1 true, PEv.fetch pv.1 true,
          PEv.checkout pv.1 pv.2 true, PEv.goGet pv.1 true]) := by
  rw [provision] at hok ⊢
  rcases hfill : fillMasterGopath o pkgs with ⟨oe, fevs⟩
  simp only [hfill] at hok ⊢
  rcases oe with _ | e
  · have hok' : (provisionLoop o [] pkgs).2.1 = none := hok
    have hl := provisionLoop_ok o pkgs [] hok'
    have hfevs : fevs = pkgs.map (fun pv => PEv.fill pv.1 true) := by
      have h5 := fillMasterGopath_ok o pkgs (by rw [hfill])
      rw [hfill] at h5
      exact h5
    constructor
    · intro pv hpv
      show wsLookup (provisionLoop o [] pkgs).1 pv.1 = _
      exact hl.2 hnd pv hpv
    · show fevs ++ (provisionLoop o [] pkgs).2.2 = _
      rw [hl.1, hfevs]
  · exact Option.noConfusion hok

/-- Witness for the provisioning theorem at a concrete two-module map
with an all-successful oracle. -/
theorem provision_exact_versions_witness :
    wsLookup (provision ⟨fun _ => true, fun _ => true, fun _ => true, fun _ => true,
        fun _ => true, fun _ => "tip"⟩ [(CaddyPackage, "master"), ("example.com/p", "v1")]).1
        "example.com/p" = some ⟨true, true, some "v1", true⟩ :=
  (provision_exact_versions ⟨fun _ => true, fun _ => true, fun _ => true, fun _ => true,
      fun _ => true, fun _ => "tip"⟩ [(CaddyPackage, "master"), ("example.com/p", "v1")]
    (by decide) (by decide)).1 ("example.com/p", "v1") (by decide)

/-! ## Package-map lemmas (`Open`) -/

theorem lookupPkg_insertPkg_self (m : List (String × String)) (k v : String) :
    lookupPkg (insertPkg m k v) k = some v := by
  induction m with
  | nil => simp [insertPkg, lookupPkg]
  | cons kv rest ih =>
    by_cases h : kv.1 = k
    · simp [insertPkg, lookupPkg, h]
    · simp [insertPkg, lookupPkg, h, ih]

theorem lookupPkg_insertPkg_other (m : List (String × String)) (k k' v : String)
    (h : k' ≠ k) : lookupPkg (insertPkg m k v) k' = lookupPkg m k' := by
  have hne : ¬ k = k' := fun h' => h h'.symm
  induction m with
  | nil =>
    simp only [insertPkg, lookupPkg]
    rw [if_neg hne]
  | cons kv rest ih =>
    by_cases hkv : kv.1 = k
    · simp only [insertPkg, if_pos hkv, lookupPkg]
      rw [if_neg hne, if_neg (show ¬ kv.1 = k' by rw [hkv]; exact hne)]
    · simp only [insertPkg, if_neg hkv, lookupPkg]
      by_cases hkv' : kv.1 = k'
      · rw [if_pos hkv', if_pos hkv']
      · rw [if_neg hkv', if_neg hkv', ih]

theorem lookupPkg_foldl_not_mem (k : String) :
    ∀ (l : List CaddyPlugin) (m : List (String × String)),
      (∀ q ∈ l, q.Package ≠ k) →
      lookupPkg (l.foldl (fun m pl => insertPkg m pl.Package pl.Version) m) k =
        lookupPkg m k := by
  intro l
  induction l with
  | nil => intro m _; rfl
  | cons pl rest ih =>
    intro m hall
    rw [List.foldl_cons, ih _ (fun q hq => hall q (List.mem_cons_of_mem pl hq)),
      lookupPkg_insertPkg_other _ _ _ _
        (fun h => hall pl (List.mem_cons_self pl rest) h.symm)]

theorem lookupPkg_mem_keys (k v : String) :
    ∀ m : List (String × String), lookupPkg m k = some v → k ∈ m.map Prod.fst := by
  intro m
  induction m with
  | nil => intro h; cases h
  | cons kv rest ih =>
    intro h
    rw [lookupPkg] at h
    by_cases hkv : kv.1 = k
    · simp [hkv]
    · rw [if_neg hkv] at h
      simp [ih h]

/-- C10 counterexample: `Open` inserts the host package after the
plugins, so a requested plugin whose package identifier is the host
package is not mapped to its requested version — the host version
overwrites it, and the map keeps a single entry. -/
theorem openPkgs_host_plugin_overwritten :
    lookupPkg (openPkgs "v1.0.0" [⟨"", CaddyPackage, "v2.0.0"⟩]) CaddyPackage
        = some "v1.0.0"
    ∧ lookupPkg (openPkgs "v1.0.0" [⟨"", CaddyPackage, "v2.0.0"⟩]) CaddyPackage
        ≠ some "v2.0.0"
    ∧ (openPkgs "v1.0.0" [⟨"", CaddyPackage, "v2.0.0"⟩]).length = 1 := by
  decide

/-- C10 (amended): the package map built by `Open` maps the host package
to the requested host version, or to `"master"` when that version is
empty; and every requested plugin whose package differs from the host
package and is not followed by a later plugin with the same package is
mapped to its requested version (with duplicates, the last one listed
wins, and a plugin using the host's package identifier is overwritten by
the host version). -/
theorem openPkgs_versions (cv : String) (plugins : List CaddyPlugin) :
    lookupPkg (openPkgs cv plugins) CaddyPackage =
      some (if cv = "" then "master" else cv)
    ∧ (∀ l₁ pl l₂, plugins = l₁ ++ pl :: l₂ → pl.Package ≠ CaddyPackage →
        (∀ q ∈ l₂, q.Package ≠ pl.Package) →
        lookupPkg (openPkgs cv plugins) pl.Package = some pl.Version) := by
  constructor
  · exact lookupPkg_insertPkg_self _ _ _
  · intro l₁ pl l₂ hdec hne hlater
    rw [openPkgs, lookupPkg_insertPkg_other _ _ _ _ hne, hdec, List.foldl_append,
      List.foldl_cons, lookupPkg_foldl_not_mem pl.Package l₂ _ hlater,
      lookupPkg_insertPkg_self]

/-- Witness for the amended `Open` package-map theorem. -/
theorem openPkgs_versions_witness :
    lookupPkg (openPkgs "" [⟨"", "example.com/a", "v1"⟩]) CaddyPackage = some "master"
    ∧ lookupPkg (openPkgs "" [⟨"", "example.com/a", "v1"⟩]) "example.com/a" = some "v1" := by
  constructor
  · have h := (openPkgs_versions "" [⟨"", "example.com/a", "v1"⟩]).1
    rw [if_pos rfl] at h
    exact h
  · exact (openPkgs_versions "" [⟨"", "example.com/a", "v1"⟩]).2
      [] ⟨"", "example.com/a", "v1"⟩ [] rfl (by decide) (by simp)

/-! ## Artifact-name lemmas -/

theorem any_nonhost_iff_length (pkgs : List (String × String))
    (hmem : CaddyPackage ∈ pkgs.map Prod.fst)
    (hnd : (pkgs.map Prod.fst).Nodup) :
    ((pkgs.map Prod.fst).any (fun k => k != CaddyPackage) = true ↔ pkgs.length > 1) := by
  constructor
  · intro hany
    rcases List.any_eq_true.mp hany with ⟨k, hk, hbk⟩
    have hkne : k ≠ CaddyPackage := bne_iff_ne.mp hbk
    match pkgs, hmem, hk with
    | [], hmem, _ => cases hmem
    | [a], hmem, hk =>
      simp only [List.map, List.mem_cons, List.not_mem_nil, or_false] at hmem hk
      exact absurd (hk.trans hmem.symm) hkne
    | a :: b :: rest, _, _ => simp
  · intro hlen
    by_contra hany
    have hall : ∀ k ∈ pkgs.map Prod.fst, k = CaddyPackage := by
      intro k hk
      by_contra hkne
      exact hany (List.any_eq_true.mpr ⟨k, hk, bne_iff_ne.mpr hkne⟩)
    match pkgs, hlen, hnd, hall with
    | a :: b :: rest, _, hnd, hall =>
      have ha : a.1 = CaddyPackage := hall a.1 (by simp)
      have hb : b.1 = CaddyPackage := hall b.1 (by simp)
      simp only [List.map, List.nodup_cons] at hnd
      exact hnd.1 (by rw [ha, hb.symm]; exact List.mem_cons_self b.1 _)

/-- C9: the artifact base name assembled by `Build` is, in order, the
fixed prefix, the host version (kept verbatim when it starts with `"v"`
or has at most 8 characters, truncated to its first 8 characters
otherwise), the OS, the architecture, an ARM-variant suffix exactly when
the architecture is arm, and the custom suffix exactly when at least one
extension module is present; at version `v1.2.3`, linux/amd64, one
plugin, the name is `caddy_v1.2.3_linux_amd64_custom`. -/
theorem build_output_name (pkgs : List (String × String)) (plat : Platform)
    (ver : String)
    (hver : lookupPkg pkgs CaddyPackage = some ver)
    (hnd : (pkgs.map Prod.fst).Nodup) :
    outputBaseName pkgs plat =
      specBaseName ver plat ((pkgs.map Prod.fst).any (fun k => k != CaddyPackage))
    ∧ ((pkgs.map Prod.fst).any (fun k => k != CaddyPackage) = true ↔ pkgs.length > 1)
    ∧ (ver.length ≤ 8 ∨ goHasPrefix ver "v" = true → hostVersionTag ver = ver)
    ∧ (goHasPrefix ver "v" = false ∧ ver.length > 8 →
        hostVersionTag ver = goTake ver 8)
    ∧ outputBaseName [(CaddyPackage, "v1.2.3"), ("example.com/plugin", "v0.0.1")]
        ⟨"linux", "amd64", "", true⟩ = "caddy_v1.2.3_linux_amd64_custom" := by
  have hmem : CaddyPackage ∈ pkgs.map Prod.fst := lookupPkg_mem_keys _ _ pkgs hver
  have hiff := any_nonhost_iff_length pkgs hmem hnd
  refine ⟨?_, hiff, ?_, ?_, by decide⟩
  · by_cases hlen : pkgs.length > 1
    · have hany : (pkgs.map Prod.fst).any (fun k => k != CaddyPackage) = true :=
        hiff.mpr hlen
      by_cases harm : plat.Arch = "arm" <;>
        simp [outputBaseName, specBaseName, hver, harm, hlen, hany]
    · have hany : (pkgs.map Prod.fst).any (fun k => k != CaddyPackage) = false := by
        revert hlen
        rw [← hiff]
        cases (pkgs.map Prod.fst).any (fun k => k != CaddyPackage) <;> simp
      by_cases harm : plat.Arch = "arm" <;>
        simp [outputBaseName, specBaseName, hver, harm, hlen, hany]
  · intro h
    rw [hostVersionTag, if_neg]
    rintro ⟨hpre, hlen⟩
    rcases h with h | h
    · omega
    · rw [h] at hpre; cases hpre
  · rintro ⟨hpre, hlen⟩
    rw [hostVersionTag, if_pos ⟨hpre, hlen⟩]

/-- Witness for the artifact-name theorem at the concrete spec
instance. -/
theorem build_output_name_witness :
    outputBaseName [(CaddyPackage, "v1.2.3"), ("example.com/plugin", "v0.0.1")]
        ⟨"linux", "amd64", "", true⟩ = "caddy_v1.2.3_linux_amd64_custom" :=
  (build_output_name [(CaddyPackage, "v1.2.3"), ("example.com/plugin", "v0.0.1")]
    ⟨"linux", "amd64", "", true⟩ "v1.2.3" (by decide) (by decide)).2.2.2.2

end Buildworker
